import Mathlib

/-!
# lab: credential store, remote filtering and resource addressing

A shallow embedding of the decision logic of the `lab` command line tool
(`config/config.go`, `gitlab.go`, `commands/browse.go`) together with the
properties proved about it.

Conventions of the embedding:

* a Go `string` is a Lean `String`; the `strings` helpers work on its
  characters (`String.data`);
* a Go `error` is an `Option String`: `none` is `nil`, `some msg` is an error
  whose text is `msg`;
* a Go pointer that may be `nil` is an `Option`;
* a Go `interface{}` value is a `GoValue`, and a function that can panic (a `nil`
  dereference, a failed type assertion) returns an `Option`, `none` for the
  panic;
* a Go function with several results returns a tuple with the results in the
  source's order;
* Go's `int` is the 64-bit one, embedded in `Int` with the range checked where
  the library checks it (`strconv.Atoi`);
* ranging over a Go map visits its entries in an unspecified order, so a
  function that ranges over a map takes the order of the visit as a parameter.
-/

namespace Lab

/-! ## Go library helpers -/

/-- Go's `error`: `none` is `nil`. -/
abbrev GoError := Option String

/-- Library `strings.HasPrefix(s, p)`: `s` begins with `p`. -/
def HasPrefix (s p : String) : Bool :=
  p.data.isPrefixOf s.data

/-- Library `strings.TrimPrefix(s, p)`: `s` without the leading `p`, or `s`
itself when it does not begin with `p`. -/
def TrimPrefix (s p : String) : String :=
  if HasPrefix s p then String.mk (s.data.drop p.data.length) else s

/-! ## config/config.go -/

/-- A value of Go's `interface{}` as a store loaded from YAML may hold one: a
`string`, or a value of another dynamic type (a number, a boolean, `nil`, a
list, a map), kept by its YAML text. -/
inductive GoValue where
  | string (s : String)
  | other (yaml : String)
deriving DecidableEq, Repr

/-- The type assertion `v.(string)`: the string, or `none` for the panic on a value
of another dynamic type. -/
def GoValue.assertString : GoValue → Option String
  | .string s => some s
  | .other _ => none

/-- One entry of `yaml.MapSlice`, `yaml.MapItem`: key and value are both
`interface{}`. -/
structure MapItem where
  Key : GoValue
  Value : GoValue
deriving DecidableEq, Repr

/-- The store, `type Config struct`. -/
structure Config where
  Tokens : List MapItem
  PreferredDomains : List String
deriving DecidableEq, Repr

/-- The manager, `type ConfigManager struct`; `Config` is a pointer, `nil`
until a load succeeds. -/
structure ConfigManager where
  Path : String
  Config : Option Config
deriving DecidableEq, Repr

/-- Method `(*Config).hasDomain`: the loop visits every preferred domain and sets
the flag at each one equal to `value`; it does not stop at the first. -/
def Config.hasDomain (c : Config) (value : String) : Bool :=
  c.PreferredDomains.foldl (fun result domain => if value = domain then true else result) false

/-- The loop of `TopPriorityDomain` over a store that is present. -/
def topPriorityLoop (conf : Config) : List String → String
  | [] => ""
  | domain :: rest => if conf.hasDomain domain then domain else topPriorityLoop conf rest

/-- Method `(*ConfigManager).TopPriorityDomain`. With no candidate the loop body
never runs and the result is `""`; otherwise `c.Config.hasDomain` dereferences
`c.Config`, which panics on `nil` (`none` here). -/
def ConfigManager.TopPriorityDomain (c : ConfigManager) (domains : List String) :
    Option String :=
  match domains, c.Config with
  | [], _ => some ""
  | _ :: _, none => none
  | _ :: _, some conf => some (topPriorityLoop conf domains)

/-- What the operating system and the YAML library answer during one `Load`:
the calls are outside the repository, so their results are inputs. -/
structure LoadEnv where
  /-- Result of `fileExists(c.Path)`. -/
  fileExists : Bool
  /-- Error of `os.OpenFile(c.Path, flag, perm)`, `none` when the file opens. -/
  openErr : GoError
  /-- Result of `ioutil.ReadAll(file)`: the bytes, or the error text. -/
  readAll : Except String String
  /-- Result of `yaml.Unmarshal(b, conf)` on the bytes read. -/
  unmarshal : String → Except String Config
  /-- Error of `file.Close()`, `none` when closing succeeds. -/
  closeErr : GoError

/-- Method `(*ConfigManager).open`: the file handle is kept abstract, `true` stands
for a non-nil `*os.File`. -/
def ConfigManager.open (c : ConfigManager) (env : LoadEnv) : Bool × GoError :=
  if !env.fileExists then
    (false, some ("Not exist config: Path " ++ c.Path))
  else
    match env.openErr with
    | some err => (false, some ("Filed open file. Error: " ++ err))
    | none => (true, none)

/-- Method `(*ConfigManager).read`. -/
def ConfigManager.read (_c : ConfigManager) (env : LoadEnv) : Option Lab.Config × GoError :=
  match env.readAll with
  | .error err => (none, some ("Failed unmarshal yaml. Error: " ++ err))
  | .ok b =>
    match env.unmarshal b with
    | .error err =>
      (none, some ("Failed unmarshal yaml. \nError: " ++ err ++ " \nBuffer: " ++ b))
    | .ok conf => (some conf, none)

/-- Method `(*ConfigManager).Load`, with its named results `(conf, err)` and the
manager after the call. The deferred function runs after the `return` has set
the named results: it closes the file and, when `err` is not `nil`, assigns the
close error to `err`. -/
def ConfigManager.Load (c : ConfigManager) (env : LoadEnv) :
    (Option Lab.Config × GoError) × ConfigManager :=
  if c.Path = "" then
    ((none, some "Please initialize config manager"), c)
  else
    match c.open env with
    | (_, some err) => ((none, some err), c)
    | (_, none) =>
      let deferred (conf : Option Lab.Config) (err : GoError) (c1 : ConfigManager) :
          (Option Lab.Config × GoError) × ConfigManager :=
        let cerr := env.closeErr
        let err1 := if err ≠ none then cerr else err
        ((conf, err1), c1)
      match c.read env with
      | (_, some err) => deferred none (some err) c
      | (conf, none) => deferred conf none { c with Config := conf }

/-! ## strconv -/

/-- The accumulation loop of `strconv` over a run of decimal digits, most
significant first: `n = n*10 + (ch - '0')`. -/
def digitsValue (cs : List Char) : Nat :=
  cs.foldl (fun n ch => n * 10 + (ch.toNat - '0'.toNat)) 0

/-- Library `strconv.Atoi` (base 10, 64-bit `int`): an optional sign `+` or `-`,
then one or more decimal digits and nothing else; a value outside
`[-2^63, 2^63 - 1]` is a range error. `none` stands for a non-nil error of
either kind (the number Go returns next to an error is never read by the
callers here). -/
def Atoi (s : String) : Option Int :=
  match s.data with
  | [] => none
  | c :: rest =>
    let neg := c == '-'
    let digits := if c == '+' || c == '-' then rest else c :: rest
    if digits.isEmpty || !digits.all Char.isDigit then none
    else
      let un := digitsValue digits
      if neg then
        if un ≤ 9223372036854775808 then some (-(un : Int)) else none
      else
        if un < 9223372036854775808 then some (un : Int) else none

/-! ## The remote descriptor (package `git`) -/

/-- The remote descriptor `git.RemoteInfo`, with the fields the sources under
study read: `Domain`, `Group` (named `NameSpace` in `browse.go`) and
`Repository`. -/
structure RemoteInfo where
  Domain : String
  Group : String
  Repository : String
deriving DecidableEq, Repr

/-- The URL methods of `*git.RemoteInfo` that `browse.go` calls. Package `git` is
not among the sources, so the methods are a parameter of every function that
calls them. -/
structure RemoteUrls where
  RepositoryUrl : RemoteInfo → String
  BranchUrl : RemoteInfo → String → String
  IssueUrl : RemoteInfo → String
  IssueDetailUrl : RemoteInfo → Int → String
  MergeRequestUrl : RemoteInfo → String
  MergeRequestDetailUrl : RemoteInfo → Int → String
  PipeLineUrl : RemoteInfo → String
  PipeLineDetailUrl : RemoteInfo → Int → String

/-- Modelled from the spec: the issue index page of `git.RemoteInfo` (its source
is missing), `https://domain/group/repository/issues` for domain `domain`,
group `group` and repository `repository`. -/
def specIssueUrl (r : RemoteInfo) : String :=
  "https://" ++ r.Domain ++ "/" ++ r.Group ++ "/" ++ r.Repository ++ "/issues"

/-- Modelled from the spec: the issue detail page of `git.RemoteInfo` (its source
is missing), `https://domain/group/repository/issues/12` for number 12. -/
def specIssueDetailUrl (r : RemoteInfo) (number : Int) : String :=
  specIssueUrl r ++ "/" ++ toString number

/-- Modelled from the spec: a full set of the URL methods of `git.RemoteInfo` (its
source is missing). The spec fixes the two issue templates; of the other pages
it says only that each has a template of its own, and they are given the same
layout under the repository page. -/
def specUrls : RemoteUrls where
  RepositoryUrl r := "https://" ++ r.Domain ++ "/" ++ r.Group ++ "/" ++ r.Repository
  BranchUrl r branch :=
    "https://" ++ r.Domain ++ "/" ++ r.Group ++ "/" ++ r.Repository ++ "/tree/" ++ branch
  IssueUrl := specIssueUrl
  IssueDetailUrl := specIssueDetailUrl
  MergeRequestUrl r :=
    "https://" ++ r.Domain ++ "/" ++ r.Group ++ "/" ++ r.Repository ++ "/merge_requests"
  MergeRequestDetailUrl r number :=
    "https://" ++ r.Domain ++ "/" ++ r.Group ++ "/" ++ r.Repository ++ "/merge_requests/"
      ++ toString number
  PipeLineUrl r :=
    "https://" ++ r.Domain ++ "/" ++ r.Group ++ "/" ++ r.Repository ++ "/pipelines"
  PipeLineDetailUrl r number :=
    "https://" ++ r.Domain ++ "/" ++ r.Group ++ "/" ++ r.Repository ++ "/pipelines/"
      ++ toString number

/-! ## commands/browse.go -/

/-- The kind of page, `type BrowseType int`. -/
abbrev BrowseType := Int

/-- Constant `Issue` (`iota` 0). -/
abbrev Issue : BrowseType := 0

/-- Constant `MergeRequest` (`iota` 1). -/
abbrev MergeRequest : BrowseType := 1

/-- Constant `PipeLine` (`iota` 2). -/
abbrev PipeLine : BrowseType := 2

/-- The entries of the map `browseTypePrefix`, in the order the source lists
them. -/
def browseTypePrefix : List (String × BrowseType) :=
  [("#", Issue), ("i", Issue), ("I", Issue),
   ("!", MergeRequest), ("m", MergeRequest), ("M", MergeRequest),
   ("p", PipeLine), ("P", PipeLine)]

/-- Function `splitPrefixAndNumber`; `order` is the order in which the `range`
loop visits the entries of `browseTypePrefix`. The results are
`(BrowseType, int, error)`. -/
def splitPrefixAndNumber (order : List (String × BrowseType)) (arg : String) :
    BrowseType × Int × GoError :=
  match order with
  | [] => (0, 0, some ("Invalid arg. " ++ arg))
  | (k, v) :: rest =>
    if HasPrefix arg k then
      let numberStr := TrimPrefix arg k
      if numberStr = "" then
        (v, 0, none)
      else
        match Atoi numberStr with
        | none => (0, 0, some ("Invalid browse number. \"" ++ numberStr ++ "\""))
        | some number => (v, number, none)
    else
      splitPrefixAndNumber rest arg

/-- Function `makeGitlabResourceUrl`. -/
def makeGitlabResourceUrl (m : RemoteUrls) (gitlabRemote : RemoteInfo)
    (browseType : BrowseType) (number : Int) : String :=
  if number > 0 then
    if browseType = Issue then m.IssueDetailUrl gitlabRemote number
    else if browseType = MergeRequest then m.MergeRequestDetailUrl gitlabRemote number
    else if browseType = PipeLine then m.PipeLineDetailUrl gitlabRemote number
    else ""
  else
    if browseType = Issue then m.IssueUrl gitlabRemote
    else if browseType = MergeRequest then m.MergeRequestUrl gitlabRemote
    else if browseType = PipeLine then m.PipeLineUrl gitlabRemote
    else ""

/-- Function `getUrlByRemote`, for a remote that is not `nil`. -/
def getUrlByRemote (m : RemoteUrls) (order : List (String × BrowseType))
    (gitlabRemote : RemoteInfo) (args : List String) (branch : String) : String × GoError :=
  match args with
  | arg0 :: _ =>
    match splitPrefixAndNumber order arg0 with
    | (_, _, some err) => ("", some err)
    | (browseType, number, none) =>
      (makeGitlabResourceUrl m gitlabRemote browseType number, none)
  | [] =>
    if branch = "master" then (m.RepositoryUrl gitlabRemote, none)
    else (m.BranchUrl gitlabRemote branch, none)

/-! ## gitlab.go -/

/-- Function `FilterGitlabRemote`: the loop appends every remote whose domain
begins with `gitlab`; the result is the first of those, or the error. -/
def FilterGitlabRemote (remoteInfos : List RemoteInfo) : Option RemoteInfo × GoError :=
  let gitlabRemotes := remoteInfos.foldl
    (fun acc remoteInfo => if HasPrefix remoteInfo.Domain "gitlab" then acc ++ [remoteInfo] else acc)
    ([] : List RemoteInfo)
  match gitlabRemotes with
  | gitLabRemote :: _ => (some gitLabRemote, none)
  | [] => (none, some "Not a cloned repository from gitlab.")

/-! ## config/config.go: tokens, mutations and persistence -/

/-- Function `NewConfigManagerPath`. -/
def NewConfigManagerPath (path : String) : ConfigManager :=
  { Path := path, Config := none }

/-- Function `NewConfigManager`. -/
def NewConfigManager : ConfigManager :=
  NewConfigManagerPath ""

/-- The loop of `getToken` from the current value of the named result `token`: at
every entry the key is asserted to be a string (`mapItem.Key.(string)`), and at
an entry whose key equals `domain` the value is asserted to be a string
(`mapItem.Value.(string)`) and becomes the result; the loop never stops early.
`none` is the panic of a failed assertion. -/
def getTokenLoop (domain : String) (token : String) : List MapItem → Option String
  | [] => some token
  | mapItem :: rest =>
    match mapItem.Key.assertString with
    | none => none
    | some key =>
      if key = domain then
        match mapItem.Value.assertString with
        | none => none
        | some value => getTokenLoop domain value rest
      else getTokenLoop domain token rest

/-- Method `(*Config).getToken`: the named result `token` starts empty; `none` is
the panic of a failed type assertion. -/
def Config.getToken (c : Config) (domain : String) : Option String :=
  getTokenLoop domain "" c.Tokens

/-- Method `(*Config).addToken`: key and value of the new entry are strings. -/
def Config.addToken (c : Config) (domain token : String) : Config :=
  { c with Tokens := c.Tokens ++ [{ Key := .string domain, Value := .string token }] }

/-- Method `(*Config).AddRepository`. -/
def Config.AddRepository (c : Config) (repository : String) : Config :=
  { c with PreferredDomains := c.PreferredDomains ++ [repository] }

/-- Method `(*Config).addPreferredDomain`. -/
def Config.addPreferredDomain (c : Config) (domain : String) : Config :=
  { c with PreferredDomains := c.PreferredDomains ++ [domain] }

/-- Method `(*ConfigManager).GetTokenOnly`; `none` is the panic of reading through a
`nil` store, or that of `getToken`. -/
def ConfigManager.GetTokenOnly (c : ConfigManager) (domain : String) : Option String :=
  match c.Config with
  | none => none
  | some conf => conf.getToken domain

/-- The operating-system calls one `Load` makes, in order: nothing is called before
the `Path` check, `fileExists` calls `os.Stat`, and the file is closed by the
deferred function once it has been opened. -/
def ConfigManager.LoadCalls (c : ConfigManager) (env : LoadEnv) : List String :=
  if c.Path = "" then
    []
  else if !env.fileExists then
    ["os.Stat"]
  else
    match env.openErr with
    | some _ => ["os.Stat", "os.OpenFile"]
    | none => ["os.Stat", "os.OpenFile", "ioutil.ReadAll", "file.Close"]

/-- What the operating system and the YAML library answer during one `Save`: the
answers to opening and closing the file, as for `Load`, and those to writing. -/
structure SaveEnv extends LoadEnv where
  /-- Result of `yaml.Marshal(c.Config)`: the text, or the error text. -/
  marshal : Option Lab.Config → Except String String
  /-- Error of `io.WriteString(writer, out)`, `none` when the write succeeds. -/
  writeErr : GoError

/-- Method `(*ConfigManager).write`. -/
def ConfigManager.write (c : ConfigManager) (env : SaveEnv) : GoError :=
  match env.marshal c.Config with
  | .error err => some ("Failed marshal config. Error: " ++ err)
  | .ok _ =>
    match env.writeErr with
    | some err => some ("Failed write config file. Error: " ++ err)
    | none => none

/-- Method `(*ConfigManager).Save`. Its result is unnamed, so the deferred function,
which assigns the close error to the local `err`, cannot change what is
returned. -/
def ConfigManager.Save (c : ConfigManager) (env : SaveEnv) : GoError :=
  match c.open env.toLoadEnv with
  | (_, some err) => some err
  | (_, none) =>
    match c.write env with
    | some err => some err
    | none => none

/-- Method `(*ConfigManager).SavePreferredDomain`: the error and the manager after
the call; `none` is the panic of writing through a `nil` store. -/
def ConfigManager.SavePreferredDomain (c : ConfigManager) (env : SaveEnv) (domain : String) :
    Option (GoError × ConfigManager) :=
  match c.Config with
  | none => none
  | some conf =>
    let c1 : ConfigManager := { c with Config := some (conf.addPreferredDomain domain) }
    match c1.Save env with
    | some err => some (some ("Failed save domain. Error: " ++ err), c1)
    | none => some (none, c1)

/-- Method `(*ConfigManager).SaveToken`: the error and the manager after the call;
`none` is the panic of writing through a `nil` store. -/
def ConfigManager.SaveToken (c : ConfigManager) (env : SaveEnv) (domain token : String) :
    Option (GoError × ConfigManager) :=
  match c.Config with
  | none => none
  | some conf =>
    let c1 : ConfigManager := { c with Config := some (conf.addToken domain token) }
    match c1.Save env with
    | some err => some (some ("Failed save token. Error: " ++ err), c1)
    | none => some (none, c1)

/-- The interface `ui.Ui` as `config.go` uses it: `Ask(query)` gives what the user
typed, or an error. -/
structure Ui where
  Ask : String → String × GoError

/-- Method `(*ConfigManager).askToken`: the results `(string, error)`, the manager
after the call and the queries put to the user, in order; `none` is the panic
of writing through a `nil` store. -/
def ConfigManager.askToken (c : ConfigManager) (ui : Ui) (env : SaveEnv) (domain : String) :
    Option ((String × GoError) × ConfigManager × List String) :=
  let query := "Please input GitLab private token :"
  match ui.Ask query with
  | (_, some err) => some (("", some ("Failed input private token. " ++ err)), c, [query])
  | (token, none) =>
    match c.Config with
    | none => none
    | some conf =>
      let c1 : ConfigManager := { c with Config := some (conf.addToken domain token) }
      match c1.Save env with
      | some err =>
        some (("", some ("Failed update config of private token. " ++ err)), c1, [query])
      | none => some ((token, none), c1, [query])

/-- Method `(*ConfigManager).GetToken`: the results `(string, error)`, the manager
after the call and the queries put to the user; `none` is the panic of reading
through a `nil` store, or that of `getToken`. -/
def ConfigManager.GetToken (c : ConfigManager) (ui : Ui) (env : SaveEnv) (domain : String) :
    Option ((String × GoError) × ConfigManager × List String) :=
  match c.Config with
  | none => none
  | some conf =>
    match conf.getToken domain with
    | none => none
    | some token =>
      if token = "" then c.askToken ui env domain
      else some ((token, none), c, [])

/-! ## strings.Replace -/

/-- The loop of `strings.Replace` for a non-empty `old`, read left to right: `skip`
counts the characters of a matched occurrence still to drop, `left` the
replacements still allowed (`none`: no limit). An occurrence is replaced where
`old` begins at the current position and a replacement is left. -/
def replaceScan (old new : List Char) : Nat → Option Nat → List Char → List Char
  | _, _, [] => []
  | skip + 1, left, _ :: rest => replaceScan old new skip left rest
  | 0, left, c :: rest =>
    if left ≠ some 0 ∧ old.isPrefixOf (c :: rest) = true then
      new ++ replaceScan old new (old.length - 1) (left.map (fun k => k - 1)) rest
    else
      c :: replaceScan old new 0 left rest

/-- The loop of `strings.Replace` for an empty `old`: `new` is put before the first
character and after each one, as long as a replacement is left. -/
def replaceEmpty (new : List Char) : Option Nat → List Char → List Char
  | left, [] => if left ≠ some 0 then new else []
  | left, c :: rest =>
    if left ≠ some 0 then new ++ c :: replaceEmpty new (left.map (fun k => k - 1)) rest
    else c :: rest

/-- Library `strings.Replace(s, old, new, n)`: the first `n` non-overlapping
occurrences of `old`, leftmost first, become `new`; all of them when `n < 0`. -/
def Replace (s old new : String) (n : Int) : String :=
  if old = new ∨ n = 0 then s
  else
    let left : Option Nat := if n < 0 then none else some n.toNat
    if old.data.isEmpty then String.mk (replaceEmpty new.data left s.data)
    else String.mk (replaceScan old.data new.data 0 left s.data)

/-! ## commands/browse.go: paths, explicit projects and the browser -/

/-- The value `gitAbsPath` that `Run` computes, in its `Path` branch from `fullpath`
and in its `CurrentPath` branch from `currentDir`, and passes to `BranchPath`:
`strings.Replace(strings.Replace(fullpath, gitroot, "", -1), "/", "", 1)`. -/
def gitAbsPath (fullpath gitroot : String) : String :=
  Replace (Replace fullpath gitroot "" (-1)) "/" "" 1

/-- Function `getUrlByUserSpecific`; the remote is a pointer, `none` when `nil`. -/
def getUrlByUserSpecific (m : RemoteUrls) (order : List (String × BrowseType))
    (gitlabRemote : Option RemoteInfo) (args : List String) (domain : String) :
    String × GoError :=
  match gitlabRemote with
  | some remote =>
    match args with
    | arg0 :: _ =>
      match splitPrefixAndNumber order arg0 with
      | (_, _, some err) => ("", some err)
      | (browseType, number, none) =>
        (makeGitlabResourceUrl m remote browseType number, none)
    | [] => (m.RepositoryUrl remote, none)
  | none =>
    if domain ≠ "" then ("https://" ++ domain, none)
    else ("", some "Not found browse url.")

/-- The local `candidates` of `searchBrowserLauncher`. -/
def candidates : List String :=
  ["xdg-open", "cygstart", "x-www-browser", "firefox", "opera", "mozilla", "netscape"]

/-- The loop of `searchBrowserLauncher` over the candidates: the browser found (empty
when none resolves) and the names given to `exec.LookPath`, in order. The loop
stops at the first name that resolves. -/
def searchLoop (LookPath : String → String × GoError) : List String → String × List String
  | [] => ("", [])
  | b :: rest =>
    match LookPath b with
    | (path, none) => (path, [b])
    | (_, some _) => ((searchLoop LookPath rest).1, b :: (searchLoop LookPath rest).2)

/-- Function `searchBrowserLauncher`, with `exec.LookPath` as a parameter: the
browser command and the names given to `exec.LookPath`, in order. -/
def searchBrowserLauncher (LookPath : String → String × GoError) (goos : String) :
    String × List String :=
  if goos = "darwin" then ("open", [])
  else if goos = "windows" then ("cmd /c start", [])
  else searchLoop LookPath candidates

/-! ## commands/browse.go: the command -/

/-- The options of the browse command that `Run` reads (the type `BrowseOption` is
declared outside the sources). -/
structure BrowseOption where
  Project : String
  Path : String
  CurrentPath : Bool
deriving DecidableEq, Repr

/-- The two exit codes `Run` returns, `ExitCodeOK` and `ExitCodeError` (constants
declared outside the sources). -/
inductive ExitCode where
  | ExitCodeOK
  | ExitCodeError
deriving DecidableEq, Repr

/-- What the collaborators of one `Run` answer: the option parser, the provider, the
git client, the command runner, the operating system and the remote's methods.
All of them are outside the sources, so their answers are inputs. -/
structure BrowseEnv where
  /-- Call `browseOptionParser.ParseArgs(args)`: the options it fills in, the
  arguments left over and the error. -/
  ParseArgs : List String → BrowseOption × List String × GoError
  /-- Call `browseOption.IsValid()`. -/
  IsValid : BrowseOption → GoError
  /-- Call `browseOption.NameSpaceAndProject()`. -/
  NameSpaceAndProject : BrowseOption → String × String
  /-- Call `c.Provider.Init()`. -/
  ProviderInit : GoError
  /-- Call `c.Provider.GetCurrentRemote()`: the pointer (`none` when `nil`) and the
  error. -/
  GetCurrentRemote : Option RemoteInfo × GoError
  /-- Call `filepath.Abs(path)`. -/
  Abs : String → String × GoError
  /-- Call `os.Stat(fPath)`: `none` when it succeeds, otherwise whether the error
  satisfies `os.IsNotExist`. -/
  Stat : String → Option Bool
  /-- Call `git.Root()`. -/
  Root : String × GoError
  /-- Call `os.Getwd()`. -/
  Getwd : String × GoError
  /-- Call `c.GitClient.CurrentRemoteBranch(gitlabRemote)`, on the pointer it is
  given (`none` when `nil`). -/
  CurrentRemoteBranch : Option RemoteInfo → String × GoError
  /-- Method `gitlabRemote.BranchPath(branch, path)`. -/
  BranchPath : RemoteInfo → String → String → String
  /-- The other URL methods of the remote. -/
  urls : RemoteUrls
  /-- The order in which the map `browseTypePrefix` is visited. -/
  order : List (String × BrowseType)
  /-- Constant `runtime.GOOS`. -/
  GOOS : String
  /-- Call `exec.LookPath(b)`. -/
  LookPath : String → String × GoError
  /-- Call `c.Cmd.Spawn()` after `SetCmd(browser)` and `WithArg(arg)`. -/
  Spawn : String → String → GoError

/-- What one `Run` does: its exit code, the messages given to `c.Ui.Error`, in order,
and the command and argument handed to `c.Cmd` when `Spawn` was reached. -/
structure RunResult where
  code : ExitCode
  errors : List String
  spawned : Option (String × String)
deriving DecidableEq, Repr

/-- Function `isFileExist`: `err == nil || !os.IsNotExist(err)`. -/
def isFileExist (env : BrowseEnv) (fPath : String) : Bool :=
  match env.Stat fPath with
  | none => true
  | some notExist => !notExist

/-- The closing block that `Run` repeats in its three branches: find the browser,
give it `arg`, spawn it. `errors` are the messages already reported. -/
def spawnBrowser (env : BrowseEnv) (errors : List String) (arg : String) : RunResult :=
  let browser := (searchBrowserLauncher env.LookPath env.GOOS).1
  match env.Spawn browser arg with
  | some err => { code := .ExitCodeError, errors := errors ++ [err], spawned := some (browser, arg) }
  | none => { code := .ExitCodeOK, errors := errors, spawned := some (browser, arg) }

/-- The part of `Run` after the project override (from `if browseOption.Path != ""`
to the end), as a function of the remote pointer it works on (`none` when
`nil`). The methods of the remote read its fields, so calling one on `nil`, like
reading `gitlabRemote.Domain`, is a `nil` dereference: the result is then `none`.
What comes before such a use runs as for any remote; in particular
`getUrlByRemote` on `nil` still returns the error of a reference that does not
parse, and the empty URL for a kind that has no page. -/
def runWithRemote (env : BrowseEnv) (browseOption : BrowseOption) (parseArgs : List String)
    (gitlabRemote : Option RemoteInfo) : Option RunResult :=
  if browseOption.Path ≠ "" then
    let fullpath := (env.Abs browseOption.Path).1
    let errors : List String :=
      match (env.Abs browseOption.Path).2 with
      | some err => [err]
      | none => []
    if !isFileExist env fullpath then
      some { code := .ExitCodeError,
             errors := errors ++ ["Not found file or path. Path:" ++ fullpath], spawned := none }
    else
      match env.Root with
      | (_, some err) =>
        some { code := .ExitCodeError, errors := errors ++ [err], spawned := none }
      | (gitroot, none) =>
        let branch := (env.CurrentRemoteBranch gitlabRemote).1
        match gitlabRemote with
        | none => none
        | some remote =>
          some (spawnBrowser env errors
            (env.BranchPath remote branch (gitAbsPath fullpath gitroot)))
  else if browseOption.CurrentPath then
    match env.Getwd with
    | (_, some err) => some { code := .ExitCodeError, errors := [err], spawned := none }
    | (currentDir, none) =>
      match env.Root with
      | (_, some err) => some { code := .ExitCodeError, errors := [err], spawned := none }
      | (gitroot, none) =>
        let branch := (env.CurrentRemoteBranch gitlabRemote).1
        match gitlabRemote with
        | none => none
        | some remote =>
          some (spawnBrowser env []
            (env.BranchPath remote branch (gitAbsPath currentDir gitroot)))
  else if browseOption.Project ≠ "" then
    match gitlabRemote with
    | none => none
    | some remote =>
      match getUrlByUserSpecific env.urls env.order (some remote) parseArgs remote.Domain with
      | (_, some err) => some { code := .ExitCodeError, errors := [err], spawned := none }
      | (url, none) => some (spawnBrowser env [] url)
  else
    match env.CurrentRemoteBranch gitlabRemote with
    | (_, some err) => some { code := .ExitCodeError, errors := [err], spawned := none }
    | (branch, none) =>
      match gitlabRemote with
      | some remote =>
        match getUrlByRemote env.urls env.order remote parseArgs branch with
        | (_, some err) => some { code := .ExitCodeError, errors := [err], spawned := none }
        | (url, none) => some (spawnBrowser env [] url)
      | none =>
        match parseArgs with
        | arg0 :: _ =>
          match splitPrefixAndNumber env.order arg0 with
          | (_, _, some err) =>
            some { code := .ExitCodeError, errors := [err], spawned := none }
          | (browseType, _, none) =>
            if browseType = Issue ∨ browseType = MergeRequest ∨ browseType = PipeLine then none
            else some (spawnBrowser env [] "")
        | [] => none

/-- Method `(*BrowseCommand).Run`. The remote is a pointer (`none` when the provider
gives `nil` with no error). With an explicit project the fields `NameSpace`
(`Group`) and `Repository` of the remote are overwritten before anything else is
done with it, which on `nil` is a `nil` dereference, `none` here. -/
def BrowseCommand.Run (env : BrowseEnv) (args : List String) : Option RunResult :=
  match env.ParseArgs args with
  | (_, _, some err) => some { code := .ExitCodeError, errors := [err], spawned := none }
  | (browseOption, parseArgs, none) =>
    match env.IsValid browseOption with
    | some err => some { code := .ExitCodeError, errors := [err], spawned := none }
    | none =>
      match env.ProviderInit with
      | some err => some { code := .ExitCodeError, errors := [err], spawned := none }
      | none =>
        match env.GetCurrentRemote with
        | (_, some err) => some { code := .ExitCodeError, errors := [err], spawned := none }
        | (gitlabRemote, none) =>
          if browseOption.Project ≠ "" then
            match gitlabRemote with
            | none => none
            | some resolved =>
              runWithRemote env browseOption parseArgs
                (some { resolved with
                        Group := (env.NameSpaceAndProject browseOption).1,
                        Repository := (env.NameSpaceAndProject browseOption).2 })
          else runWithRemote env browseOption parseArgs gitlabRemote

/-! ## commands/mr/update.go -/

namespace Mr

/-- The merge request as `update.go` reads it: `gitlab.MergeRequest` with the fields
`Title` and `Description`. -/
structure MergeRequest where
  Title : String
  Description : String
deriving DecidableEq, Repr

/-- The options of the update command that `update.go` reads (the type
`CreateUpdateOption` of package `mr` is declared outside the sources). -/
structure CreateUpdateOption where
  Title : String
  Message : String
  TargetBranch : String
  StateEvent : String
  AssigneeID : Int
  MilestoneID : Int
deriving DecidableEq, Repr

/-- The two flag accessors of `CreateUpdateOption`, declared outside the sources:
each returns `(ok, flag)`, whether the flag was given and its value. -/
structure FlagAccessors where
  RemoveSourceBranchFlag : CreateUpdateOption → Bool × Bool
  SquashFlag : CreateUpdateOption → Bool × Bool

/-- The request `gitlab.UpdateMergeRequestOptions`, with the fields that
`makeUpdateMergeRequestOption` may set; each is a pointer, `none` when left
`nil`. -/
structure UpdateMergeRequestOptions where
  Title : Option String
  Description : Option String
  TargetBranch : Option String
  StateEvent : Option String
  AssigneeID : Option Int
  MilestoneID : Option Int
  RemoveSourceBranch : Option Bool
  Squash : Option Bool
deriving DecidableEq, Repr

/-- Function `makeUpdateMergeRequestOption`, for an option set that is not `nil`. -/
def makeUpdateMergeRequestOption (flags : FlagAccessors) (opt : CreateUpdateOption)
    (title description : String) : UpdateMergeRequestOptions :=
  let o0 : UpdateMergeRequestOptions :=
    { Title := some title, Description := some description,
      TargetBranch := some opt.TargetBranch, StateEvent := none, AssigneeID := none,
      MilestoneID := none, RemoveSourceBranch := none, Squash := none }
  let o1 := if opt.StateEvent ≠ "" then { o0 with StateEvent := some opt.StateEvent } else o0
  let o2 := if opt.AssigneeID ≠ 0 then { o1 with AssigneeID := some opt.AssigneeID } else o1
  let o3 := if opt.MilestoneID ≠ 0 then { o2 with MilestoneID := some opt.MilestoneID } else o2
  let o4 :=
    if (flags.RemoveSourceBranchFlag opt).1 then
      { o3 with RemoveSourceBranch := some (flags.RemoveSourceBranchFlag opt).2 }
    else o3
  if (flags.SquashFlag opt).1 then { o4 with Squash := some (flags.SquashFlag opt).2 } else o4

/-- A call made on the client `api.MergeRequest`. -/
inductive ApiCall where
  | GetMergeRequest (id : Int) (project : String)
  | UpdateMergeRequest (opt : UpdateMergeRequestOptions) (id : Int) (project : String)
deriving DecidableEq, Repr

/-- The client `api.MergeRequest`: each call answers a pointer (`none` when `nil`) and
an error. -/
structure MergeRequestClient where
  GetMergeRequest : Int → String → Option MergeRequest × GoError
  UpdateMergeRequest : UpdateMergeRequestOptions → Int → String → Option MergeRequest × GoError

/-- The receiver `updateMethod`. -/
structure updateMethod where
  client : MergeRequestClient
  opt : CreateUpdateOption
  project : String
  id : Int

/-- Method `(*updateMethod).Process`: its results `(string, error)` and the calls made
on the client, in order; `none` is the `nil` dereference of a merge request that
came back `nil` with no error. -/
def updateMethod.Process (flags : FlagAccessors) (m : updateMethod) :
    Option ((String × GoError) × List ApiCall) :=
  match m.client.GetMergeRequest m.id m.project with
  | (_, some err) => some (("", some err), [.GetMergeRequest m.id m.project])
  | (none, none) => none
  | (some mergeRequest, none) =>
    let updatedTitle := if m.opt.Title ≠ "" then m.opt.Title else mergeRequest.Title
    let updatedMessage := if m.opt.Message ≠ "" then m.opt.Message else mergeRequest.Description
    let request := makeUpdateMergeRequestOption flags m.opt updatedTitle updatedMessage
    let calls : List ApiCall :=
      [.GetMergeRequest m.id m.project, .UpdateMergeRequest request m.id m.project]
    match m.client.UpdateMergeRequest request m.id m.project with
    | (_, some _) => some (("", none), calls)
    | (_, none) => some (("", none), calls)

/-- The receiver `updateOnEditorMethod`; `EditTitleAndDesc` stands for
`internal.EditTitleAndDesc("MERGE_REQUEST", internal.EditContents(title, description), m.editFunc)`
as a function of the title and description given to `EditContents` (package
`internal` is outside the sources): the title and message edited, and the
error. -/
structure updateOnEditorMethod where
  client : MergeRequestClient
  opt : CreateUpdateOption
  project : String
  id : Int
  EditTitleAndDesc : String → String → String × String × GoError

/-- Method `(*updateOnEditorMethod).Process`: its results `(string, error)` and the
calls made on the client, in order; `none` is the `nil` dereference of a merge
request that came back `nil` with no error. -/
def updateOnEditorMethod.Process (flags : FlagAccessors) (m : updateOnEditorMethod) :
    Option ((String × GoError) × List ApiCall) :=
  match m.client.GetMergeRequest m.id m.project with
  | (_, some _) => some (("", none), [.GetMergeRequest m.id m.project])
  | (none, none) => none
  | (some mergeRequest, none) =>
    match m.EditTitleAndDesc mergeRequest.Title mergeRequest.Description with
    | (_, _, some _) => some (("", none), [.GetMergeRequest m.id m.project])
    | (title, message, none) =>
      let request := makeUpdateMergeRequestOption flags m.opt title message
      let calls : List ApiCall :=
        [.GetMergeRequest m.id m.project, .UpdateMergeRequest request m.id m.project]
      match m.client.UpdateMergeRequest request m.id m.project with
      | (_, some _) => some (("", none), calls)
      | (_, none) => some (("", none), calls)

end Mr

/-! ## commands/option.go -/

/-- The search options, `type SearchOption struct`. -/
structure SearchOption where
  State : String
  Scope : String
  OrderBy : String
  Opened : Bool
  Closed : Bool
  CreatedMe : Bool
  AssignedMe : Bool
  AllProject : Bool
deriving DecidableEq, Repr

/-- Method `(*SearchOption).GetState`: the result, and the option after the call (the
receiver is a pointer). -/
def SearchOption.GetState (s : SearchOption) : String × SearchOption :=
  if s.Opened then ("opened", s)
  else if s.Closed then ("closed", s)
  else (s.State, s)

/-- Method `(*SearchOption).GetScope`: the result, and the option after the call (the
receiver is a pointer). -/
def SearchOption.GetScope (s : SearchOption) : String × SearchOption :=
  if s.CreatedMe then ("created-by-me", s)
  else if s.AssignedMe then ("assigned-to-me", s)
  else (s.Scope, s)

/-! ## Vocabulary of the statements -/

/-- A decimal numeral: one or more characters, all decimal digits. -/
def isNumeral (s : String) : Bool :=
  !s.data.isEmpty && s.data.all Char.isDigit

/-- The number a decimal numeral denotes. -/
def numeralValue (s : String) : Nat :=
  digitsValue s.data

/-- An integer literal as `strconv` reads one: a decimal numeral, optionally
preceded by one sign, denoting `n`. -/
def SignedNumeral (s : String) (n : Int) : Prop :=
  ∃ ds : String, isNumeral ds = true ∧
    ((s = ds ∨ s = "+" ++ ds) ∧ n = (numeralValue ds : Int)
      ∨ s = "-" ++ ds ∧ n = -(numeralValue ds : Int))

/-- The range of Go's 64-bit `int`. -/
def InIntRange (n : Int) : Prop :=
  -9223372036854775808 ≤ n ∧ n ≤ 9223372036854775807

/-- The entry can be read by `getToken(domain)`: its key is a string, and its value is
a string too when the key equals `domain`. -/
def MapItem.readableFor (domain : String) (mapItem : MapItem) : Bool :=
  match mapItem.Key, mapItem.Value with
  | .string _, .string _ => true
  | .string key, .other _ => decide (key ≠ domain)
  | .other _, _ => false

/-- The eight characters that are keys of `browseTypePrefix`. -/
def knownPrefixChars : List Char :=
  ['#', 'i', 'I', '!', 'm', 'M', 'p', 'P']

/-- The argument starts with one of the eight known characters. -/
def startsWithKnownPrefix (arg : String) : Bool :=
  match arg.data with
  | [] => false
  | c :: _ => decide (c ∈ knownPrefixChars)

/-- A run used as an example: the arguments `-p owner/project #12` of a clone of
`gitlab.ssl.domain1.jp/group/repository` on `darwin`, where every collaborator
succeeds. -/
def exampleBrowseEnv : BrowseEnv where
  ParseArgs := fun _ => ({ Project := "owner/project", Path := "", CurrentPath := false },
    ["#12"], none)
  IsValid := fun _ => none
  NameSpaceAndProject := fun _ => ("owner", "project")
  ProviderInit := none
  GetCurrentRemote := (some ⟨"gitlab.ssl.domain1.jp", "group", "repository"⟩, none)
  Abs := fun path => (path, none)
  Stat := fun _ => none
  Root := ("/repo", none)
  Getwd := ("/repo", none)
  CurrentRemoteBranch := fun _ => ("master", none)
  BranchPath := fun r branch path =>
    "https://" ++ r.Domain ++ "/" ++ r.Group ++ "/" ++ r.Repository ++ "/tree/" ++ branch
      ++ "/" ++ path
  urls := specUrls
  order := browseTypePrefix
  GOOS := "darwin"
  LookPath := fun _ => ("", some "not found")
  Spawn := fun _ _ => none

/-- An update used as an example, the test's case "change title only": merge request
12 of `group/project`, titled `title` with description `desc`, and the option
`Title = newtitle`. -/
def exampleUpdateMethod : Mr.updateMethod where
  client :=
    { GetMergeRequest := fun _ _ => (some ⟨"title", "desc"⟩, none),
      UpdateMergeRequest := fun _ _ _ => (some ⟨"newtitle", "desc"⟩, none) }
  opt := ⟨"newtitle", "", "", "", 0, 0⟩
  project := "group/project"
  id := 12

/-- Flag accessors used as an example: neither flag was given. -/
def exampleFlags : Mr.FlagAccessors where
  RemoveSourceBranchFlag := fun _ => (false, false)
  SquashFlag := fun _ => (false, false)

/-! ## Properties of the store -/

theorem hasDomain_fold (l : List String) (value : String) (b : Bool) :
    l.foldl (fun result domain => if value = domain then true else result) b
      = (b || decide (value ∈ l)) := by
  induction l generalizing b with
  | nil => simp
  | cons d rest ih =>
    rw [List.foldl_cons, ih]
    by_cases h : value = d
    · simp [h]
    · simp [h]

theorem hasDomain_iff (conf : Config) (value : String) :
    conf.hasDomain value = true ↔ value ∈ conf.PreferredDomains := by
  unfold Config.hasDomain
  rw [hasDomain_fold]
  simp

theorem topPriorityLoop_eq_find (conf : Config) (domains : List String) :
    topPriorityLoop conf domains
      = (domains.find? (fun d => decide (d ∈ conf.PreferredDomains))).getD "" := by
  induction domains with
  | nil => rfl
  | cons d rest ih =>
    unfold topPriorityLoop
    by_cases h : d ∈ conf.PreferredDomains
    · have h1 : conf.hasDomain d = true := (hasDomain_iff conf d).2 h
      simp [h1, h]
    · have h1 : conf.hasDomain d = false := by
        cases hb : conf.hasDomain d with
        | false => rfl
        | true => exact absurd ((hasDomain_iff conf d).1 hb) h
      simp [h1, h, ih]

/-! ## Properties of the reference parser -/

theorem HasPrefix_append (k rest : String) : HasPrefix (k ++ rest) k = true := by
  unfold HasPrefix
  rw [String.data_append]
  simp

theorem TrimPrefix_append (k rest : String) : TrimPrefix (k ++ rest) k = rest := by
  unfold TrimPrefix
  rw [HasPrefix_append]
  simp [String.data_append]

theorem HasPrefix_single (arg : String) (c : Char) :
    HasPrefix arg (String.mk [c]) = true ↔ arg.data.head? = some c := by
  unfold HasPrefix
  cases h : arg.data with
  | nil => simp
  | cons a rest =>
    simp only [List.isPrefixOf, List.head?_cons, Option.some.injEq, Bool.and_true, beq_iff_eq]
    exact eq_comm

theorem split_no_match (order : List (String × BrowseType)) (arg : String)
    (h : ∀ kv ∈ order, HasPrefix arg kv.1 = false) :
    splitPrefixAndNumber order arg = (0, 0, some ("Invalid arg. " ++ arg)) := by
  induction order with
  | nil => rfl
  | cons kv rest ih =>
    obtain ⟨k, v⟩ := kv
    unfold splitPrefixAndNumber
    have hk : HasPrefix arg k = false := h (k, v) (List.mem_cons_self _ _)
    simp only [hk]
    exact ih (fun kv hkv => h kv (List.mem_cons_of_mem _ hkv))

theorem split_unique_match (order : List (String × BrowseType)) (arg k : String)
    (v : BrowseType) (hmem : (k, v) ∈ order) (hk : HasPrefix arg k = true)
    (huniq : ∀ kv ∈ order, HasPrefix arg kv.1 = true → kv = (k, v)) :
    splitPrefixAndNumber order arg = splitPrefixAndNumber [(k, v)] arg := by
  induction order with
  | nil => cases hmem
  | cons kv rest ih =>
    obtain ⟨k1, v1⟩ := kv
    by_cases h1 : HasPrefix arg k1 = true
    · have e := huniq (k1, v1) (List.mem_cons_self _ _) h1
      cases e
      simp [splitPrefixAndNumber, hk]
    · have h1f : HasPrefix arg k1 = false := by simpa using h1
      have hne : (k, v) ≠ (k1, v1) := by
        intro e
        cases e
        rw [hk] at h1f
        cases h1f
      have hmem1 : (k, v) ∈ rest := by
        rcases List.mem_cons.1 hmem with e | e
        · exact absurd e hne
        · exact e
      have := ih hmem1 (fun kv hkv => huniq kv (List.mem_cons_of_mem _ hkv))
      rw [← this]
      conv_lhs => unfold splitPrefixAndNumber
      simp [h1f]

theorem known_prefix_unique (arg : String) :
    ∀ a ∈ browseTypePrefix, ∀ b ∈ browseTypePrefix,
      HasPrefix arg a.1 = true → HasPrefix arg b.1 = true → a = b := by
  intro a ha b hb h1 h2
  have key : ∀ kv ∈ browseTypePrefix, ∀ c : Char, kv.1 = String.mk [c] →
      HasPrefix arg kv.1 = true → arg.data.head? = some c := by
    intro kv _ c hc h
    rw [hc] at h
    exact (HasPrefix_single arg c).1 h
  simp only [browseTypePrefix, List.mem_cons, List.mem_singleton, List.not_mem_nil, or_false] at ha hb
  rcases ha with rfl | rfl | rfl | rfl | rfl | rfl | rfl | rfl <;>
  rcases hb with rfl | rfl | rfl | rfl | rfl | rfl | rfl | rfl <;>
  first
  | rfl
  | (exfalso
     rw [show ∀ s : String, HasPrefix arg s = true ↔ HasPrefix arg (String.mk s.data) = true from fun s => Iff.rfl] at h1 h2
     rw [HasPrefix_single] at h1 h2
     rw [h1] at h2
     revert h2
     decide)

theorem split_perm (order : List (String × BrowseType)) (arg : String)
    (h : order.Perm browseTypePrefix) :
    splitPrefixAndNumber order arg = splitPrefixAndNumber browseTypePrefix arg := by
  by_cases hex : ∃ kv ∈ browseTypePrefix, HasPrefix arg kv.1 = true
  · obtain ⟨⟨k, v⟩, hmem, hk⟩ := hex
    have hu : ∀ kv ∈ browseTypePrefix, HasPrefix arg kv.1 = true → kv = (k, v) :=
      fun kv hkv hp => known_prefix_unique arg kv hkv (k, v) hmem hp hk
    rw [split_unique_match order arg k v (h.mem_iff.2 hmem) hk
          (fun kv hkv hp => hu kv (h.mem_iff.1 hkv) hp),
      split_unique_match browseTypePrefix arg k v hmem hk hu]
  · have hno : ∀ kv ∈ browseTypePrefix, HasPrefix arg kv.1 = false := by
      intro kv hkv
      cases hp : HasPrefix arg kv.1 with
      | false => rfl
      | true => exact absurd ⟨kv, hkv, hp⟩ hex
    rw [split_no_match order arg (fun kv hkv => hno kv (h.mem_iff.1 hkv)),
      split_no_match browseTypePrefix arg hno]

theorem split_known (order : List (String × BrowseType)) (k rest : String) (v : BrowseType)
    (h : order.Perm browseTypePrefix) (hmem : (k, v) ∈ browseTypePrefix) :
    splitPrefixAndNumber order (k ++ rest)
      = if rest = "" then (v, 0, none)
        else match Atoi rest with
          | none => (0, 0, some ("Invalid browse number. \"" ++ rest ++ "\""))
          | some number => (v, number, none) := by
  have hk := HasPrefix_append k rest
  rw [split_unique_match order (k ++ rest) k v (h.mem_iff.2 hmem) hk
        (fun kv hkv hp => known_prefix_unique (k ++ rest) kv (h.mem_iff.1 hkv) (k, v) hmem hp hk)]
  simp only [splitPrefixAndNumber, hk, TrimPrefix_append, if_true]

theorem isNumeral_data {ds : String} (h : isNumeral ds = true) :
    ∃ c rest, ds.data = c :: rest ∧ c.isDigit = true ∧ rest.all Char.isDigit = true := by
  unfold isNumeral at h
  cases hd : ds.data with
  | nil => simp [hd] at h
  | cons c rest =>
    simp only [hd, List.isEmpty_cons, Bool.not_false, Bool.true_and, List.all_cons,
      Bool.and_eq_true] at h
    exact ⟨c, rest, rfl, h.1, h.2⟩

theorem isDigit_not_sign {c : Char} (h : c.isDigit = true) : (c == '+') = false ∧ (c == '-') = false := by
  constructor
  · cases hc : (c == '+') with
    | false => rfl
    | true =>
      have : c = '+' := by simpa using hc
      subst this
      revert h; decide
  · cases hc : (c == '-') with
    | false => rfl
    | true =>
      have : c = '-' := by simpa using hc
      subst this
      revert h; decide

theorem Atoi_numeral (ds : String) (h : isNumeral ds = true) :
    Atoi ds = if numeralValue ds < 9223372036854775808 then some (numeralValue ds : Int)
      else none := by
  obtain ⟨c, rest, hd, hc, hrest⟩ := isNumeral_data h
  obtain ⟨hp, hm⟩ := isDigit_not_sign hc
  unfold Atoi numeralValue
  rw [hd]
  simp [hp, hm, hc, hrest]

theorem Atoi_plus (ds : String) (h : isNumeral ds = true) :
    Atoi ("+" ++ ds) = if numeralValue ds < 9223372036854775808
      then some (numeralValue ds : Int) else none := by
  obtain ⟨c, rest, hd, hc, hrest⟩ := isNumeral_data h
  unfold Atoi numeralValue
  have e : ("+" ++ ds).data = '+' :: ds.data := by rw [String.data_append]; rfl
  rw [e, hd]
  simp [hc, hrest]

theorem Atoi_minus (ds : String) (h : isNumeral ds = true) :
    Atoi ("-" ++ ds) = if numeralValue ds ≤ 9223372036854775808
      then some (-(numeralValue ds : Int)) else none := by
  obtain ⟨c, rest, hd, hc, hrest⟩ := isNumeral_data h
  unfold Atoi numeralValue
  have e : ("-" ++ ds).data = '-' :: ds.data := by rw [String.data_append]; rfl
  rw [e, hd]
  simp [hc, hrest]

theorem numeral_of_digits (ds : List Char)
    (hbad : ¬ (ds.isEmpty || !ds.all Char.isDigit) = true) :
    isNumeral (String.mk ds) = true := by
  unfold isNumeral
  cases hE : ds.isEmpty with
  | true => simp [hE] at hbad
  | false =>
    cases hA : ds.all Char.isDigit with
    | false => simp [hE, hA] at hbad
    | true => simp [hE, hA]

theorem Atoi_some_signed (s : String) (n : Int) (h : Atoi s = some n) :
    SignedNumeral s n ∧ InIntRange n := by
  unfold Atoi at h
  cases hd : s.data with
  | nil => simp [hd] at h
  | cons c rest =>
    rw [hd] at h
    by_cases hp : c = '+'
    · subst hp
      have hneg : ('+' == '-') = false := by decide
      simp only [beq_self_eq_true, Bool.true_or, if_true, hneg, Bool.false_eq_true, ↓reduceIte] at h
      split_ifs at h with hbad hr
      · have hnum := numeral_of_digits rest hbad
        have hs : s = "+" ++ String.mk rest := by
          apply String.ext
          rw [String.data_append, hd]
          rfl
        cases h
        refine ⟨⟨String.mk rest, hnum, Or.inl ⟨Or.inr hs, rfl⟩⟩, ?_⟩
        unfold InIntRange
        constructor <;> omega
    · by_cases hm : c = '-'
      · subst hm
        simp only [beq_self_eq_true, Bool.or_true, ↓reduceIte] at h
        split_ifs at h with hbad hr
        · have hnum := numeral_of_digits rest hbad
          have hs : s = "-" ++ String.mk rest := by
            apply String.ext
            rw [String.data_append, hd]
            rfl
          cases h
          refine ⟨⟨String.mk rest, hnum, Or.inr ⟨hs, rfl⟩⟩, ?_⟩
          unfold InIntRange
          constructor <;> omega
      · have hp1 : (c == '+') = false := by simpa using hp
        have hm1 : (c == '-') = false := by simpa using hm
        simp only [hp1, hm1, Bool.or_false, Bool.false_eq_true, ↓reduceIte] at h
        split_ifs at h with hbad hr
        · have hnum : isNumeral s = true := by
            have := numeral_of_digits (c :: rest) hbad
            unfold isNumeral at this ⊢
            rw [hd]
            exact this
          cases h
          refine ⟨⟨s, hnum, Or.inl ⟨Or.inl rfl, ?_⟩⟩, ?_⟩
          · unfold numeralValue; rw [hd]
          · unfold InIntRange
            constructor <;> omega

theorem Atoi_eq_some_iff (s : String) (n : Int) :
    Atoi s = some n ↔ SignedNumeral s n ∧ InIntRange n := by
  constructor
  · exact Atoi_some_signed s n
  · intro h
    obtain ⟨hs, hlo, hhi⟩ := h
    unfold SignedNumeral at hs
    obtain ⟨ds, hnum, (⟨hs | hs, hn⟩ | ⟨hs, hn⟩)⟩ := hs
    · subst hn; rw [hs]
      rw [Atoi_numeral ds hnum]
      have : numeralValue ds < 9223372036854775808 := by omega
      simp [this]
    · subst hn; rw [hs]
      rw [Atoi_plus ds hnum]
      have : numeralValue ds < 9223372036854775808 := by omega
      simp [this]
    · subst hn; rw [hs]
      rw [Atoi_minus ds hnum]
      have : numeralValue ds ≤ 9223372036854775808 := by omega
      simp [this]

theorem HasPrefix_split {arg k : String} (h : HasPrefix arg k = true) :
    arg = k ++ TrimPrefix arg k := by
  have hp : k.data <+: arg.data := by
    unfold HasPrefix at h
    exact List.isPrefixOf_iff_prefix.1 h
  obtain ⟨t, ht⟩ := hp
  apply String.ext
  unfold TrimPrefix
  rw [h, String.data_append, ← ht]
  simp

theorem startsWithKnownPrefix_iff (arg : String) :
    startsWithKnownPrefix arg = true ↔ ∃ kv ∈ browseTypePrefix, HasPrefix arg kv.1 = true := by
  have hs : ∀ s : String, HasPrefix arg s = true ↔ HasPrefix arg (String.mk s.data) = true :=
    fun s => Iff.rfl
  unfold startsWithKnownPrefix
  cases hd : arg.data with
  | nil =>
    constructor
    · intro h; cases h
    · rintro ⟨kv, hkv, hp⟩
      simp only [browseTypePrefix, List.mem_cons, List.mem_singleton, List.not_mem_nil,
        or_false] at hkv
      rcases hkv with rfl | rfl | rfl | rfl | rfl | rfl | rfl | rfl <;>
      · rw [hs, HasPrefix_single, hd] at hp
        cases hp
  | cons c rest =>
    constructor
    · intro h
      have hc : c ∈ knownPrefixChars := by simpa using h
      simp only [knownPrefixChars, List.mem_cons, List.mem_singleton, List.not_mem_nil,
        or_false] at hc
      have hh : ∀ x : Char, c = x → HasPrefix arg (String.mk [x]) = true := by
        intro x hx
        rw [HasPrefix_single, hd, hx]
        rfl
      rcases hc with e | e | e | e | e | e | e | e
      · exact ⟨("#", Issue), by decide, hh _ e⟩
      · exact ⟨("i", Issue), by decide, hh _ e⟩
      · exact ⟨("I", Issue), by decide, hh _ e⟩
      · exact ⟨("!", MergeRequest), by decide, hh _ e⟩
      · exact ⟨("m", MergeRequest), by decide, hh _ e⟩
      · exact ⟨("M", MergeRequest), by decide, hh _ e⟩
      · exact ⟨("p", PipeLine), by decide, hh _ e⟩
      · exact ⟨("P", PipeLine), by decide, hh _ e⟩
    · rintro ⟨kv, hkv, hp⟩
      simp only [browseTypePrefix, List.mem_cons, List.mem_singleton, List.not_mem_nil,
        or_false] at hkv
      rcases hkv with rfl | rfl | rfl | rfl | rfl | rfl | rfl | rfl <;>
      · rw [hs, HasPrefix_single, hd] at hp
        simp only [List.head?_cons, Option.some.injEq] at hp
        subst hp
        simp [knownPrefixChars]

theorem invalid_number_ne_invalid_arg (a x : String) :
    "Invalid browse number. \"" ++ a ++ "\"" ≠ "Invalid arg. " ++ x := by
  intro h
  have h1 := congrArg (fun s : String => s.data.take 9) h
  simp only [String.data_append] at h1
  rw [List.append_assoc, List.take_append_of_le_length (by decide),
    List.take_append_of_le_length (by decide)] at h1
  revert h1
  decide

theorem split_numeral (order : List (String × BrowseType)) (k s : String) (v : BrowseType)
    (horder : order.Perm browseTypePrefix) (hk : (k, v) ∈ browseTypePrefix)
    (hs : isNumeral s = true) :
    splitPrefixAndNumber order (k ++ s)
      = if numeralValue s < 9223372036854775808 then (v, (numeralValue s : Int), none)
        else (0, 0, some ("Invalid browse number. \"" ++ s ++ "\"")) := by
  have hne : s ≠ "" := by
    intro e
    subst e
    revert hs
    decide
  rw [split_known order k s v horder hk, if_neg hne, Atoi_numeral s hs]
  split_ifs <;> rfl

/-! ## The credential store: settled properties -/

/-- C1: over a store that is present, `TopPriorityDomain` returns the first of the
candidates, in candidate order, that occurs anywhere in `PreferredDomains`, and
the empty string when no candidate occurs there; with `PreferredDomains = [d1, d2]`
and candidates `[d2, d1]`, `d1 ≠ d2`, the result is `d2`. -/
theorem TopPriorityDomain_first_preferred_candidate (path : String) (conf : Config)
    (domains : List String) :
    ConfigManager.TopPriorityDomain ⟨path, some conf⟩ domains
        = some ((domains.find? (fun d => decide (d ∈ conf.PreferredDomains))).getD "")
    ∧ ((∀ d ∈ domains, d ∉ conf.PreferredDomains) →
        ConfigManager.TopPriorityDomain ⟨path, some conf⟩ domains = some "")
    ∧ (∀ (before after : List String) (d : String), domains = before ++ d :: after →
        (∀ x ∈ before, x ∉ conf.PreferredDomains) → d ∈ conf.PreferredDomains →
        ConfigManager.TopPriorityDomain ⟨path, some conf⟩ domains = some d)
    ∧ (∀ (tokens : List MapItem) (d1 d2 : String), d1 ≠ d2 →
        ConfigManager.TopPriorityDomain ⟨path, some ⟨tokens, [d1, d2]⟩⟩ [d2, d1] = some d2) := by
  have hfind : ∀ (c : Config) (ds : List String),
      ConfigManager.TopPriorityDomain ⟨path, some c⟩ ds
        = some ((ds.find? (fun d => decide (d ∈ c.PreferredDomains))).getD "") := by
    intro c ds
    cases ds with
    | nil => rfl
    | cons d rest =>
      simp only [ConfigManager.TopPriorityDomain]
      rw [topPriorityLoop_eq_find]
  refine ⟨hfind conf domains, ?_, ?_, ?_⟩
  · intro hnone
    rw [hfind]
    have : domains.find? (fun d => decide (d ∈ conf.PreferredDomains)) = none := by
      rw [List.find?_eq_none]
      intro x hx
      simpa using hnone x hx
    rw [this]
    rfl
  · intro before after d hsplit hbefore hd
    subst hsplit
    rw [hfind]
    have : (before ++ d :: after).find? (fun d => decide (d ∈ conf.PreferredDomains))
        = some d := by
      induction before with
      | nil => simp [hd]
      | cons b rest ih =>
        have hb : b ∉ conf.PreferredDomains := hbefore b (List.mem_cons_self _ _)
        simp only [List.cons_append, List.find?_cons, hb, decide_False]
        exact ih (fun x hx => hbefore x (List.mem_cons_of_mem _ hx))
    rw [this]
    rfl
  · intro tokens d1 d2 hne
    rw [hfind]
    simp

/-- C1, at the two domains of the test data: candidate order wins. -/
theorem TopPriorityDomain_first_preferred_candidate_witness :
    "gitlab.ssl.domain1.jp" ≠ "gitlab.ssl.domain2.jp" ∧
    ConfigManager.TopPriorityDomain
      ⟨"/home/user/.labconfig.yml",
        some ⟨[], ["gitlab.ssl.domain1.jp", "gitlab.ssl.domain2.jp"]⟩⟩
      ["gitlab.ssl.domain2.jp", "gitlab.ssl.domain1.jp"] = some "gitlab.ssl.domain2.jp" :=
  ⟨by decide,
    (TopPriorityDomain_first_preferred_candidate "/home/user/.labconfig.yml"
      ⟨[], ["gitlab.ssl.domain1.jp", "gitlab.ssl.domain2.jp"]⟩
      ["gitlab.ssl.domain2.jp", "gitlab.ssl.domain1.jp"]).2.2.2 []
      "gitlab.ssl.domain1.jp" "gitlab.ssl.domain2.jp" (by decide)⟩

/-- Whenever the file opens, its content fails to load and closing succeeds, the
deferred function replaces the load error by the close result: `Load` hands
back `(nil, nil)` and leaves the manager as it was. -/
theorem Load_read_error_lost (c : ConfigManager) (env : LoadEnv) (hpath : c.Path ≠ "")
    (hopen : c.open env = (true, none)) (hread : (c.read env).2 ≠ none)
    (hclose : env.closeErr = none) :
    c.Load env = ((none, none), c) := by
  unfold ConfigManager.Load
  rw [if_neg hpath, hopen]
  cases hr : c.read env with
  | mk conf err =>
    rw [hr] at hread
    cases err with
    | none => exact absurd rfl hread
    | some e => simp [hclose]

/-- C2: a store file whose content does not parse, on an initialised manager
whose file opens and closes without error: `Load` returns `(nil, nil)`, no error
reaches the caller. -/
theorem Load_malformed_content_returns_nil_nil :
    (ConfigManager.read ⟨"/home/user/.labconfig.yml", none⟩
        ⟨true, none, .ok "tokens: [", fun _ => .error "yaml: did not find expected node content",
          none⟩).2
      = some ("Failed unmarshal yaml. \nError: yaml: did not find expected node content"
          ++ " \nBuffer: tokens: [")
    ∧ ConfigManager.Load ⟨"/home/user/.labconfig.yml", none⟩
        ⟨true, none, .ok "tokens: [", fun _ => .error "yaml: did not find expected node content",
          none⟩
      = ((none, none), ⟨"/home/user/.labconfig.yml", none⟩) := by
  constructor
  · decide
  · decide

/-! ## The reference parser: settled properties -/

/-- C3 as stated fails: after the known character `#` the remainder `-5` is not a
non-negative integer, yet parsing succeeds, with the number -5. -/
theorem splitPrefixAndNumber_accepts_negative_remainder :
    HasPrefix "#-5" "#" = true ∧ TrimPrefix "#-5" "#" = "-5" ∧
    splitPrefixAndNumber browseTypePrefix "#-5" = (Issue, -5, none) := by
  decide

/-- C3, amended: for an argument made of a known character and a non-empty
remainder, parsing succeeds exactly when the remainder is a decimal numeral with
an optional sign `+` or `-` whose value lies in the range of `int`, and the number
is then that signed value; every other non-empty remainder fails with
`Invalid browse number. "<remainder>"`. This holds in whatever order the map is
visited. -/
theorem splitPrefixAndNumber_remainder (order : List (String × BrowseType))
    (k rest : String) (v : BrowseType)
    (horder : order.Perm browseTypePrefix) (hk : (k, v) ∈ browseTypePrefix)
    (hrest : rest ≠ "") :
    ((splitPrefixAndNumber order (k ++ rest)).2.2 = none
        ↔ ∃ n, SignedNumeral rest n ∧ InIntRange n)
    ∧ (∀ n, SignedNumeral rest n → InIntRange n →
        splitPrefixAndNumber order (k ++ rest) = (v, n, none))
    ∧ ((¬ ∃ n, SignedNumeral rest n ∧ InIntRange n) →
        splitPrefixAndNumber order (k ++ rest)
          = (0, 0, some ("Invalid browse number. \"" ++ rest ++ "\""))) := by
  have hsplit := split_known order k rest v horder hk
  rw [if_neg hrest] at hsplit
  cases ha : Atoi rest with
  | none =>
    rw [ha] at hsplit
    have hno : ¬ ∃ n, SignedNumeral rest n ∧ InIntRange n := by
      rintro ⟨n, hn⟩
      have := (Atoi_eq_some_iff rest n).2 hn
      rw [ha] at this
      cases this
    refine ⟨?_, ?_, ?_⟩
    · rw [hsplit]
      constructor
      · intro h; cases h
      · intro h; exact absurd h hno
    · intro n h1 h2
      exact absurd ⟨n, h1, h2⟩ hno
    · intro _
      exact hsplit
  | some number =>
    rw [ha] at hsplit
    have hyes := (Atoi_eq_some_iff rest number).1 ha
    refine ⟨?_, ?_, ?_⟩
    · rw [hsplit]
      constructor
      · intro _; exact ⟨number, hyes⟩
      · intro _; rfl
    · intro n h1 h2
      have := (Atoi_eq_some_iff rest n).2 ⟨h1, h2⟩
      rw [ha] at this
      cases this
      exact hsplit
    · intro h
      exact absurd ⟨number, hyes⟩ h

/-- C3, amended, at `#-5` visited in the source's order: the remainder `-5` is a
signed numeral in range and the parse succeeds with -5. -/
theorem splitPrefixAndNumber_remainder_witness :
    browseTypePrefix.Perm browseTypePrefix ∧ ("#", Issue) ∈ browseTypePrefix ∧ "-5" ≠ "" ∧
    splitPrefixAndNumber browseTypePrefix ("#" ++ "-5") = (Issue, -5, none) :=
  ⟨List.Perm.refl _, by decide, by decide,
    (splitPrefixAndNumber_remainder browseTypePrefix "#" "-5" Issue (List.Perm.refl _)
      (by decide) (by decide)).2.1 (-5)
      ⟨"5", by decide, Or.inr ⟨by decide, by decide⟩⟩
      ⟨by decide, by decide⟩⟩

/-- C4 as stated fails: `9223372036854775808` is a decimal numeral, denoting 2^63,
but after the known character `#` it is refused, because the number does not
fit Go's `int`. -/
theorem splitPrefixAndNumber_rejects_large_numeral :
    isNumeral "9223372036854775808" = true ∧
    numeralValue "9223372036854775808" = 9223372036854775808 ∧
    splitPrefixAndNumber browseTypePrefix ("#" ++ "9223372036854775808")
      = (0, 0, some "Invalid browse number. \"9223372036854775808\"") := by
  decide

/-- C4, amended: the known characters and their kinds are `#`, `i`, `I` for Issue,
`!`, `m`, `M` for MergeRequest, `p`, `P` for PipeLine. For such a character `k` of
kind `v`, in whatever order the map is visited: `k` alone parses to `(v, 0)`;
`k` followed by a decimal numeral of value below 2^63 parses to `(v, value)`;
`k` followed by a decimal numeral of value 2^63 or more fails; and `k` followed
by a non-empty suffix that is not a decimal numeral with an optional sign
fails. -/
theorem splitPrefixAndNumber_known_character (order : List (String × BrowseType))
    (k : String) (v : BrowseType)
    (horder : order.Perm browseTypePrefix) (hk : (k, v) ∈ browseTypePrefix) :
    ((v = Issue ∧ k ∈ ["#", "i", "I"]) ∨ (v = MergeRequest ∧ k ∈ ["!", "m", "M"])
        ∨ (v = PipeLine ∧ k ∈ ["p", "P"]))
    ∧ splitPrefixAndNumber order k = (v, 0, none)
    ∧ (∀ s, isNumeral s = true → numeralValue s < 9223372036854775808 →
        splitPrefixAndNumber order (k ++ s) = (v, (numeralValue s : Int), none))
    ∧ (∀ s, isNumeral s = true → 9223372036854775808 ≤ numeralValue s →
        splitPrefixAndNumber order (k ++ s)
          = (0, 0, some ("Invalid browse number. \"" ++ s ++ "\"")))
    ∧ (∀ s, s ≠ "" → (∀ n, ¬ SignedNumeral s n) →
        splitPrefixAndNumber order (k ++ s)
          = (0, 0, some ("Invalid browse number. \"" ++ s ++ "\""))) := by
  have hne : ∀ s, isNumeral s = true → s ≠ "" := by
    intro s hs e
    subst e
    revert hs
    decide
  refine ⟨?_, ?_, ?_, ?_, ?_⟩
  · have htable : ∀ kv ∈ browseTypePrefix,
        (kv.2 = Issue ∧ kv.1 ∈ ["#", "i", "I"]) ∨ (kv.2 = MergeRequest ∧ kv.1 ∈ ["!", "m", "M"])
          ∨ (kv.2 = PipeLine ∧ kv.1 ∈ ["p", "P"]) := by
      decide
    exact htable (k, v) hk
  · have h := split_known order k "" v horder hk
    rw [if_pos rfl] at h
    have e : k ++ "" = k := by
      apply String.ext
      rw [String.data_append]
      simp
    rw [e] at h
    exact h
  · intro s hs hlt
    rw [split_known order k s v horder hk, if_neg (hne s hs), Atoi_numeral s hs, if_pos hlt]
  · intro s hs hge
    rw [split_known order k s v horder hk, if_neg (hne s hs), Atoi_numeral s hs,
      if_neg (by omega)]
  · intro s hs hno
    rw [split_known order k s v horder hk, if_neg hs]
    cases ha : Atoi s with
    | none => rfl
    | some n => exact absurd ((Atoi_eq_some_iff s n).1 ha).1 (hno n)

/-- C4, amended, at `m` and `m12` visited in the source's order. -/
theorem splitPrefixAndNumber_known_character_witness :
    browseTypePrefix.Perm browseTypePrefix ∧ ("m", MergeRequest) ∈ browseTypePrefix ∧
    splitPrefixAndNumber browseTypePrefix "m" = (MergeRequest, 0, none) ∧
    splitPrefixAndNumber browseTypePrefix ("m" ++ "12") = (MergeRequest, 12, none) :=
  ⟨List.Perm.refl _, by decide,
    (splitPrefixAndNumber_known_character browseTypePrefix "m" MergeRequest (List.Perm.refl _)
      (by decide)).2.1,
    (splitPrefixAndNumber_known_character browseTypePrefix "m" MergeRequest (List.Perm.refl _)
      (by decide)).2.2.1 "12" (by decide) (by decide)⟩

/-- C5: in whatever order the map is visited, an argument (the empty one included)
that does not start with one of the eight known characters fails with
`Invalid arg. <arg>`, naming the whole argument; and an argument that starts
with a known character never fails with an error of that form. -/
theorem splitPrefixAndNumber_invalid_arg (order : List (String × BrowseType)) (arg : String)
    (horder : order.Perm browseTypePrefix) :
    (startsWithKnownPrefix arg = false →
        splitPrefixAndNumber order arg = (0, 0, some ("Invalid arg. " ++ arg)))
    ∧ (startsWithKnownPrefix arg = true →
        ∀ x : String, (splitPrefixAndNumber order arg).2.2 ≠ some ("Invalid arg. " ++ x)) := by
  constructor
  · intro h
    apply split_no_match
    intro kv hkv
    cases hp : HasPrefix arg kv.1 with
    | false => rfl
    | true =>
      have := (startsWithKnownPrefix_iff arg).2 ⟨kv, horder.mem_iff.1 hkv, hp⟩
      rw [h] at this
      cases this
  · intro h x
    obtain ⟨⟨k, v⟩, hkv, hp⟩ := (startsWithKnownPrefix_iff arg).1 h
    have harg := HasPrefix_split hp
    rw [harg, split_known order k (TrimPrefix arg k) v horder hkv]
    split_ifs with hempty
    · intro e; cases e
    · cases Atoi (TrimPrefix arg k) with
      | none =>
        intro e
        exact invalid_number_ne_invalid_arg _ _ (Option.some.inj e)
      | some n => intro e; cases e

/-- C5, at the argument `x12` and at the empty argument, visited in the source's
order. -/
theorem splitPrefixAndNumber_invalid_arg_witness :
    browseTypePrefix.Perm browseTypePrefix ∧ startsWithKnownPrefix "x12" = false ∧
    splitPrefixAndNumber browseTypePrefix "x12" = (0, 0, some "Invalid arg. x12") ∧
    splitPrefixAndNumber browseTypePrefix "" = (0, 0, some "Invalid arg. ") :=
  ⟨List.Perm.refl _, by decide,
    (splitPrefixAndNumber_invalid_arg browseTypePrefix "x12" (List.Perm.refl _)).1 (by decide),
    (splitPrefixAndNumber_invalid_arg browseTypePrefix "" (List.Perm.refl _)).1 (by decide)⟩

/-- C6: the result of `splitPrefixAndNumber` does not depend on the order in which
the eight entries of the map are visited: any two orders give the same kind,
number and error, which are those of the ordered list of pairs tested in
turn. -/
theorem splitPrefixAndNumber_order_independent (arg : String)
    (order1 order2 : List (String × BrowseType))
    (h1 : order1.Perm browseTypePrefix) (h2 : order2.Perm browseTypePrefix) :
    splitPrefixAndNumber order1 arg = splitPrefixAndNumber order2 arg
    ∧ splitPrefixAndNumber order1 arg = splitPrefixAndNumber browseTypePrefix arg := by
  refine ⟨?_, split_perm order1 arg h1⟩
  rw [split_perm order1 arg h1, split_perm order2 arg h2]

/-- C6, at `M7` with the map visited backwards and in the source's order. -/
theorem splitPrefixAndNumber_order_independent_witness :
    browseTypePrefix.reverse.Perm browseTypePrefix ∧
    browseTypePrefix.Perm browseTypePrefix ∧
    splitPrefixAndNumber browseTypePrefix.reverse "M7"
      = splitPrefixAndNumber browseTypePrefix "M7" :=
  ⟨List.reverse_perm _, List.Perm.refl _,
    (splitPrefixAndNumber_order_independent "M7" browseTypePrefix.reverse browseTypePrefix
      (List.reverse_perm _) (List.Perm.refl _)).1⟩

/-! ## URL rendering: settled properties -/

/-- C7: for every remote and every set of URL methods, `makeGitlabResourceUrl` with
a number `n > 0` returns the detail URL of the kind, templated with `n`, and with
the number 0 (absent) the index URL of the kind; with the spec's issue templates
and domain `domain`, group `group`, repository `repository`, (Issue, absent) gives
`https://domain/group/repository/issues` and (Issue, 12) gives
`https://domain/group/repository/issues/12`. -/
theorem makeGitlabResourceUrl_detail_and_index (m : RemoteUrls) (remote : RemoteInfo)
    (n : Int) :
    (0 < n →
        makeGitlabResourceUrl m remote Issue n = m.IssueDetailUrl remote n
        ∧ makeGitlabResourceUrl m remote MergeRequest n = m.MergeRequestDetailUrl remote n
        ∧ makeGitlabResourceUrl m remote PipeLine n = m.PipeLineDetailUrl remote n)
    ∧ (makeGitlabResourceUrl m remote Issue 0 = m.IssueUrl remote
        ∧ makeGitlabResourceUrl m remote MergeRequest 0 = m.MergeRequestUrl remote
        ∧ makeGitlabResourceUrl m remote PipeLine 0 = m.PipeLineUrl remote)
    ∧ makeGitlabResourceUrl
          { m with IssueUrl := specIssueUrl, IssueDetailUrl := specIssueDetailUrl }
          ⟨"domain", "group", "repository"⟩ Issue 0
        = "https://domain/group/repository/issues"
    ∧ makeGitlabResourceUrl
          { m with IssueUrl := specIssueUrl, IssueDetailUrl := specIssueDetailUrl }
          ⟨"domain", "group", "repository"⟩ Issue 12
        = "https://domain/group/repository/issues/12" := by
  refine ⟨?_, ?_, ?_, ?_⟩
  · intro hn
    simp [makeGitlabResourceUrl, hn]
  · simp [makeGitlabResourceUrl]
  · rfl
  · rfl

/-- C7, at number 12 with the URL methods modelled from the spec. -/
theorem makeGitlabResourceUrl_detail_and_index_witness :
    (0 : Int) < 12 ∧
    makeGitlabResourceUrl specUrls ⟨"domain", "group", "repository"⟩ Issue 12
      = specUrls.IssueDetailUrl ⟨"domain", "group", "repository"⟩ 12 :=
  ⟨by decide,
    ((makeGitlabResourceUrl_detail_and_index specUrls ⟨"domain", "group", "repository"⟩ 12).1
      (by decide)).1⟩

/-- C8 as stated fails at two numerals: `0` is a decimal numeral, and `#0` is
rendered as the issue index page, not as the detail page of number 0; and
`9223372036854775808` is a decimal numeral for which `getUrlByRemote` fails. -/
theorem getUrlByRemote_numeral_without_detail_page :
    isNumeral "0" = true ∧ numeralValue "0" = 0 ∧
    getUrlByRemote specUrls browseTypePrefix ⟨"domain", "group", "repository"⟩
        ["#" ++ "0"] "master"
      = ("https://domain/group/repository/issues", none) ∧
    specUrls.IssueDetailUrl ⟨"domain", "group", "repository"⟩ 0
      = "https://domain/group/repository/issues/0" ∧
    isNumeral "9223372036854775808" = true ∧
    getUrlByRemote specUrls browseTypePrefix ⟨"domain", "group", "repository"⟩
        ["#" ++ "9223372036854775808"] "master"
      = ("", some "Invalid browse number. \"9223372036854775808\"") := by
  decide

/-- C8, amended: for every remote, branch, set of URL methods and order of visit, a
known character of kind `v` followed by a decimal numeral `s`: when the value of
`s` is positive and below 2^63, `getUrlByRemote` succeeds with the detail URL of
kind `v` templated with that value; when the value is 0 it succeeds with the
index URL of kind `v`; when the value is 2^63 or more it fails with
`Invalid browse number. "<s>"`. -/
theorem getUrlByRemote_numeric_reference (m : RemoteUrls)
    (order : List (String × BrowseType)) (remote : RemoteInfo) (branch k s : String)
    (v : BrowseType) (horder : order.Perm browseTypePrefix)
    (hk : (k, v) ∈ browseTypePrefix) (hs : isNumeral s = true) :
    (0 < numeralValue s → numeralValue s < 9223372036854775808 →
        (v = Issue → getUrlByRemote m order remote [k ++ s] branch
            = (m.IssueDetailUrl remote (numeralValue s : Int), none))
        ∧ (v = MergeRequest → getUrlByRemote m order remote [k ++ s] branch
            = (m.MergeRequestDetailUrl remote (numeralValue s : Int), none))
        ∧ (v = PipeLine → getUrlByRemote m order remote [k ++ s] branch
            = (m.PipeLineDetailUrl remote (numeralValue s : Int), none)))
    ∧ (numeralValue s = 0 →
        (v = Issue → getUrlByRemote m order remote [k ++ s] branch
            = (m.IssueUrl remote, none))
        ∧ (v = MergeRequest → getUrlByRemote m order remote [k ++ s] branch
            = (m.MergeRequestUrl remote, none))
        ∧ (v = PipeLine → getUrlByRemote m order remote [k ++ s] branch
            = (m.PipeLineUrl remote, none)))
    ∧ (9223372036854775808 ≤ numeralValue s →
        getUrlByRemote m order remote [k ++ s] branch
          = ("", some ("Invalid browse number. \"" ++ s ++ "\""))) := by
  have hnum := split_numeral order k s v horder hk hs
  refine ⟨?_, ?_, ?_⟩
  · intro hpos hlt
    have hsp := hnum
    rw [if_pos hlt] at hsp
    have hn : (0 : Int) < (numeralValue s : Int) := by exact_mod_cast hpos
    refine ⟨?_, ?_, ?_⟩ <;>
    · intro hv
      subst hv
      simp [getUrlByRemote, hsp, makeGitlabResourceUrl, hn]
  · intro hz
    have hsp := hnum
    rw [if_pos (by omega), hz] at hsp
    refine ⟨?_, ?_, ?_⟩ <;>
    · intro hv
      subst hv
      simp [getUrlByRemote, hsp, makeGitlabResourceUrl]
  · intro hge
    have hsp := hnum
    rw [if_neg (by omega)] at hsp
    simp [getUrlByRemote, hsp]

/-- C8, amended, at `#12` on branch `master` with the URL methods modelled from the
spec: the issue detail page of number 12. -/
theorem getUrlByRemote_numeric_reference_witness :
    browseTypePrefix.Perm browseTypePrefix ∧ ("#", Issue) ∈ browseTypePrefix ∧
    isNumeral "12" = true ∧ 0 < numeralValue "12" ∧
    numeralValue "12" < 9223372036854775808 ∧
    getUrlByRemote specUrls browseTypePrefix ⟨"domain", "group", "repository"⟩
        ["#" ++ "12"] "master"
      = (specUrls.IssueDetailUrl ⟨"domain", "group", "repository"⟩
          (numeralValue "12" : Int), none) :=
  ⟨List.Perm.refl _, by decide, by decide, by decide, by decide,
    ((getUrlByRemote_numeric_reference specUrls browseTypePrefix
      ⟨"domain", "group", "repository"⟩ "master" "#" "12" Issue (List.Perm.refl _)
      (by decide) (by decide)).1 (by decide) (by decide)).1 rfl⟩

/-- C9: with no argument `getUrlByRemote` never fails; it returns `RepositoryUrl()`
when the branch is `master` and `BranchUrl(branch)` for every other branch,
whatever the remote, the URL methods and the order of visit of the map. -/
theorem getUrlByRemote_no_reference (m : RemoteUrls) (order : List (String × BrowseType))
    (remote : RemoteInfo) (branch : String) :
    (getUrlByRemote m order remote [] branch).2 = none
    ∧ (getUrlByRemote m order remote [] branch).1
        = (if branch = "master" then m.RepositoryUrl remote else m.BranchUrl remote branch)
    ∧ getUrlByRemote m order remote [] "master" = (m.RepositoryUrl remote, none) := by
  refine ⟨?_, ?_, ?_⟩
  · unfold getUrlByRemote
    split_ifs <;> rfl
  · unfold getUrlByRemote
    split_ifs <;> rfl
  · rfl

/-! ## Remote filtering: settled properties -/

theorem find_first_accepted {α : Type} (p : α → Bool) (before after : List α) (r : α)
    (hbefore : ∀ x ∈ before, p x = false) (hr : p r = true) :
    (before ++ r :: after).find? p = some r := by
  induction before with
  | nil => simp [hr]
  | cons b rest ih =>
    have hb := hbefore b (List.mem_cons_self _ _)
    simp only [List.cons_append, List.find?_cons, hb]
    exact ih (fun x hx => hbefore x (List.mem_cons_of_mem _ hx))

theorem filter_fold (l acc : List RemoteInfo) :
    l.foldl (fun acc remoteInfo =>
        if HasPrefix remoteInfo.Domain "gitlab" then acc ++ [remoteInfo] else acc) acc
      = acc ++ l.filter (fun r => HasPrefix r.Domain "gitlab") := by
  induction l generalizing acc with
  | nil => simp
  | cons r rest ih =>
    rw [List.foldl_cons, ih]
    by_cases h : HasPrefix r.Domain "gitlab" = true
    · simp [h]
    · simp [h]

theorem FilterGitlabRemote_eq_find (remoteInfos : List RemoteInfo) :
    FilterGitlabRemote remoteInfos
      = match remoteInfos.find? (fun r => HasPrefix r.Domain "gitlab") with
        | some r => (some r, none)
        | none => (none, some "Not a cloned repository from gitlab.") := by
  unfold FilterGitlabRemote
  simp only [filter_fold, List.nil_append]
  induction remoteInfos with
  | nil => rfl
  | cons r rest ih =>
    by_cases h : HasPrefix r.Domain "gitlab" = true
    · simp [List.filter_cons, List.find?_cons, h]
    · simp only [List.filter_cons, List.find?_cons, h]
      exact ih

/-- C10: `FilterGitlabRemote` returns the first remote, in input order, whose
`Domain` starts with the literal `gitlab` (matched case-sensitively, as a
prefix), and fails, with `Not a cloned repository from gitlab.`, exactly when no
remote of the list has such a `Domain`; `gitlab.ssl.domain1.jp` and `gitlabhost`
qualify, `bitbucket.org`, `mygitlab.com` and `Gitlab.com` do not. -/
theorem FilterGitlabRemote_first_gitlab (remoteInfos : List RemoteInfo) :
    (∀ (before after : List RemoteInfo) (r : RemoteInfo), remoteInfos = before ++ r :: after →
        (∀ x ∈ before, HasPrefix x.Domain "gitlab" = false) →
        HasPrefix r.Domain "gitlab" = true →
        FilterGitlabRemote remoteInfos = (some r, none))
    ∧ ((∀ x ∈ remoteInfos, HasPrefix x.Domain "gitlab" = false) →
        FilterGitlabRemote remoteInfos = (none, some "Not a cloned repository from gitlab."))
    ∧ ((FilterGitlabRemote remoteInfos).2 ≠ none
        ↔ ∀ x ∈ remoteInfos, HasPrefix x.Domain "gitlab" = false)
    ∧ ((FilterGitlabRemote remoteInfos).2 = some "Not a cloned repository from gitlab."
        ↔ ∀ x ∈ remoteInfos, HasPrefix x.Domain "gitlab" = false)
    ∧ HasPrefix "gitlab.ssl.domain1.jp" "gitlab" = true
    ∧ HasPrefix "gitlabhost" "gitlab" = true
    ∧ HasPrefix "bitbucket.org" "gitlab" = false
    ∧ HasPrefix "mygitlab.com" "gitlab" = false
    ∧ HasPrefix "Gitlab.com" "gitlab" = false := by
  have hnone : (∀ x ∈ remoteInfos, HasPrefix x.Domain "gitlab" = false) →
      FilterGitlabRemote remoteInfos = (none, some "Not a cloned repository from gitlab.") := by
    intro h
    rw [FilterGitlabRemote_eq_find]
    have : remoteInfos.find? (fun r => HasPrefix r.Domain "gitlab") = none := by
      rw [List.find?_eq_none]
      intro x hx
      simp [h x hx]
    rw [this]
  have hsome : (¬ ∀ x ∈ remoteInfos, HasPrefix x.Domain "gitlab" = false) →
      ∃ r, FilterGitlabRemote remoteInfos = (some r, none) := by
    intro h
    rw [FilterGitlabRemote_eq_find]
    cases hf : remoteInfos.find? (fun r => HasPrefix r.Domain "gitlab") with
    | some r => exact ⟨r, rfl⟩
    | none =>
      exfalso
      apply h
      intro x hx
      have := List.find?_eq_none.1 hf x hx
      simpa using this
  refine ⟨?_, hnone, ?_, ?_, by decide, by decide, by decide, by decide, by decide⟩
  · intro before after r hsplit hbefore hr
    subst hsplit
    rw [FilterGitlabRemote_eq_find]
    rw [find_first_accepted (fun r => HasPrefix r.Domain "gitlab") before after r hbefore hr]
  · constructor
    · intro herr
      by_contra hcon
      obtain ⟨r, hr⟩ := hsome hcon
      rw [hr] at herr
      exact herr rfl
    · intro h
      rw [hnone h]
      simp
  · constructor
    · intro herr
      by_contra hcon
      obtain ⟨r, hr⟩ := hsome hcon
      rw [hr] at herr
      cases herr
    · intro h
      rw [hnone h]

/-- C10, at the remotes `bitbucket.org`, `mygitlab.com`, `gitlabhost`,
`gitlab.ssl.domain1.jp` in this order: the third is returned. -/
theorem FilterGitlabRemote_first_gitlab_witness :
    (∀ x ∈ [(⟨"bitbucket.org", "g", "r"⟩ : RemoteInfo), ⟨"mygitlab.com", "g", "r"⟩],
        HasPrefix x.Domain "gitlab" = false) ∧
    HasPrefix "gitlabhost" "gitlab" = true ∧
    FilterGitlabRemote [⟨"bitbucket.org", "g", "r"⟩, ⟨"mygitlab.com", "g", "r"⟩,
        ⟨"gitlabhost", "g", "r"⟩, ⟨"gitlab.ssl.domain1.jp", "g", "r"⟩]
      = (some ⟨"gitlabhost", "g", "r"⟩, none) :=
  ⟨by decide, by decide,
    (FilterGitlabRemote_first_gitlab [⟨"bitbucket.org", "g", "r"⟩, ⟨"mygitlab.com", "g", "r"⟩,
        ⟨"gitlabhost", "g", "r"⟩, ⟨"gitlab.ssl.domain1.jp", "g", "r"⟩]).1
      [⟨"bitbucket.org", "g", "r"⟩, ⟨"mygitlab.com", "g", "r"⟩]
      [⟨"gitlab.ssl.domain1.jp", "g", "r"⟩] ⟨"gitlabhost", "g", "r"⟩ rfl (by decide)
      (by decide)⟩

/-! ## Path scoping: settled properties -/

/-- C11: for root `/repo` and target `/repo/sub/file.go` the path handed to
`BranchPath` is `sub/file.go`; but for the target `/repo/sub/repo/file.go`, which
lies under the same root with relative part `sub/repo/file.go`, it is
`sub/file.go` as well: every occurrence of the root string is removed, not only
the leading one. -/
theorem gitAbsPath_removes_every_root_occurrence :
    gitAbsPath "/repo/sub/file.go" "/repo" = "sub/file.go"
    ∧ "/repo/sub/repo/file.go" = "/repo" ++ "/" ++ "sub/repo/file.go"
    ∧ gitAbsPath "/repo/sub/repo/file.go" "/repo" = "sub/file.go"
    ∧ gitAbsPath "/repo/sub/repo/file.go" "/repo" ≠ "sub/repo/file.go" := by
  decide

/-! ## Tokens: settled properties -/

theorem getTokenLoop_append (domain token : String) (l1 l2 : List MapItem) :
    getTokenLoop domain token (l1 ++ l2)
      = (getTokenLoop domain token l1).bind (fun t => getTokenLoop domain t l2) := by
  induction l1 generalizing token with
  | nil => rfl
  | cons x rest ih =>
    obtain ⟨key, value⟩ := x
    cases key with
    | other y => rfl
    | string k =>
      by_cases hk : k = domain
      · cases value with
        | other y => simp [getTokenLoop, GoValue.assertString, hk]
        | string v => simp [getTokenLoop, GoValue.assertString, hk, ih]
      · simp [getTokenLoop, GoValue.assertString, hk, ih]

theorem getTokenLoop_isSome (domain token : String) (l : List MapItem) :
    (getTokenLoop domain token l).isSome = l.all (MapItem.readableFor domain) := by
  induction l generalizing token with
  | nil => rfl
  | cons x rest ih =>
    obtain ⟨key, value⟩ := x
    cases key with
    | other y => simp [getTokenLoop, GoValue.assertString, MapItem.readableFor]
    | string k =>
      by_cases hk : k = domain
      · cases value with
        | other y => simp [getTokenLoop, GoValue.assertString, MapItem.readableFor, hk]
        | string v => simp [getTokenLoop, GoValue.assertString, MapItem.readableFor, hk, ih]
      · cases value with
        | other y => simp [getTokenLoop, GoValue.assertString, MapItem.readableFor, hk, ih]
        | string v => simp [getTokenLoop, GoValue.assertString, MapItem.readableFor, hk, ih]

theorem getTokenLoop_readable (domain token : String) (l : List MapItem)
    (hread : ∀ x ∈ l, x.readableFor domain = true) :
    ∃ t, getTokenLoop domain token l = some t := by
  have h := getTokenLoop_isSome domain token l
  rw [List.all_eq_true.2 hread] at h
  exact Option.isSome_iff_exists.1 h

theorem getTokenLoop_unreadable (domain token : String) (l : List MapItem)
    (hread : ¬ ∀ x ∈ l, x.readableFor domain = true) :
    getTokenLoop domain token l = none := by
  have h := getTokenLoop_isSome domain token l
  cases hg : getTokenLoop domain token l with
  | none => rfl
  | some t =>
    rw [hg] at h
    exact absurd (List.all_eq_true.1 h.symm) hread

theorem getTokenLoop_no_match (domain token : String) (l : List MapItem)
    (hread : ∀ x ∈ l, x.readableFor domain = true)
    (hkeys : ∀ x ∈ l, x.Key ≠ .string domain) :
    getTokenLoop domain token l = some token := by
  induction l with
  | nil => rfl
  | cons x rest ih =>
    have hx := hread x (List.mem_cons_self _ _)
    have hkx := hkeys x (List.mem_cons_self _ _)
    have hrest := ih (fun y hy => hread y (List.mem_cons_of_mem _ hy))
      (fun y hy => hkeys y (List.mem_cons_of_mem _ hy))
    obtain ⟨key, value⟩ := x
    cases key with
    | other y => simp [MapItem.readableFor] at hx
    | string k =>
      have hk : k ≠ domain := fun e => hkx (by rw [e])
      simp [getTokenLoop, GoValue.assertString, hk, hrest]

theorem getToken_append_string_entry (conf : Config) (domain key value : String) :
    Config.getToken ⟨conf.Tokens ++ [⟨.string key, .string value⟩], conf.PreferredDomains⟩ domain
      = (conf.getToken domain).bind (fun t => some (if key = domain then value else t)) := by
  unfold Config.getToken
  rw [getTokenLoop_append]
  congr 1
  funext t
  by_cases hk : key = domain
  · simp [getTokenLoop, GoValue.assertString, hk]
  · simp [getTokenLoop, GoValue.assertString, hk]

/-- C12 as stated fails: on a store loaded with the entry `gitlab.com: 12345`, whose
value is a number, `getToken("gitlab.com")` after `addToken("gitlab.com", "token1")`
panics at the type assertion on the old entry and does not return `token1`. -/
theorem getToken_after_addToken_panics_on_number :
    (Config.addToken ⟨[⟨.string "gitlab.com", .other "12345"⟩], []⟩
        "gitlab.com" "token1").getToken "gitlab.com" = none := by
  decide

/-- C12, amended: after `addToken(d, t)`, `getToken(d)` is `t` on every store whose
entries all have string keys and, under the key `d`, string values, whatever
entries for `d` it held before; on every other store it panics. `getToken` of
every other domain is what it was, on every store. -/
theorem getToken_after_addToken (conf : Config) (d t : String) :
    ((∀ x ∈ conf.Tokens, x.readableFor d = true) → (conf.addToken d t).getToken d = some t)
    ∧ ((¬ ∀ x ∈ conf.Tokens, x.readableFor d = true) → (conf.addToken d t).getToken d = none)
    ∧ (∀ other : String, other ≠ d →
        (conf.addToken d t).getToken other = conf.getToken other) := by
  refine ⟨?_, ?_, ?_⟩
  · intro hread
    obtain ⟨t0, ht0⟩ := getTokenLoop_readable d "" conf.Tokens hread
    unfold Config.addToken
    rw [getToken_append_string_entry]
    unfold Config.getToken
    rw [ht0]
    simp
  · intro hread
    unfold Config.addToken
    rw [getToken_append_string_entry]
    unfold Config.getToken
    rw [getTokenLoop_unreadable d "" conf.Tokens hread]
    rfl
  · intro other hne
    unfold Config.addToken
    rw [getToken_append_string_entry]
    cases conf.getToken other with
    | none => rfl
    | some t0 => simp [Ne.symm hne]

/-- C12, amended, at a store that already holds two tokens for
`gitlab.ssl.domain1.jp`: the added token is read back. -/
theorem getToken_after_addToken_witness :
    (∀ x ∈ [(⟨.string "gitlab.ssl.domain1.jp", .string "token1"⟩ : MapItem),
          ⟨.string "gitlab.ssl.domain2.jp", .string "token2"⟩,
          ⟨.string "gitlab.ssl.domain1.jp", .string "token3"⟩],
        x.readableFor "gitlab.ssl.domain1.jp" = true) ∧
    (Config.addToken
        ⟨[⟨.string "gitlab.ssl.domain1.jp", .string "token1"⟩,
          ⟨.string "gitlab.ssl.domain2.jp", .string "token2"⟩,
          ⟨.string "gitlab.ssl.domain1.jp", .string "token3"⟩], []⟩
        "gitlab.ssl.domain1.jp" "token4").getToken "gitlab.ssl.domain1.jp" = some "token4" :=
  ⟨by decide,
    (getToken_after_addToken
      ⟨[⟨.string "gitlab.ssl.domain1.jp", .string "token1"⟩,
        ⟨.string "gitlab.ssl.domain2.jp", .string "token2"⟩,
        ⟨.string "gitlab.ssl.domain1.jp", .string "token3"⟩], []⟩
      "gitlab.ssl.domain1.jp" "token4").1 (by decide)⟩

/-- C13 as stated fails: on a store loaded with the entry `gitlab.com: 12345`,
`getToken("gitlab.com")` panics instead of returning the token of that entry; and
on a store loaded with the entry `1: token1`, whose key is a number,
`getToken("gitlab.com")` panics instead of returning the empty string, although no
entry has the key `gitlab.com`. -/
theorem getToken_panics_on_number :
    Config.getToken ⟨[⟨.string "gitlab.com", .other "12345"⟩], []⟩ "gitlab.com" = none
    ∧ (∀ x ∈ [(⟨.other "1", .string "token1"⟩ : MapItem)], x.Key ≠ .string "gitlab.com")
    ∧ Config.getToken ⟨[⟨.other "1", .string "token1"⟩], []⟩ "gitlab.com" = none := by
  decide

/-- C13, amended: `getToken` returns normally exactly on the stores whose entries all
have string keys and, under the key `domain`, string values. On such a store it
returns the token of the last entry of `Tokens` whose key equals the domain
exactly, and the empty string when no entry has that key; on every other store
it panics. `GetTokenOnly` is `getToken` on the manager's store. -/
theorem getToken_last_entry_wins (conf : Config) (domain : String) :
    (conf.getToken domain ≠ none ↔ ∀ x ∈ conf.Tokens, x.readableFor domain = true)
    ∧ ((∀ x ∈ conf.Tokens, x.readableFor domain = true) →
        ∀ (before after : List MapItem) (item : MapItem),
        conf.Tokens = before ++ item :: after → item.Key = .string domain →
        (∀ x ∈ after, x.Key ≠ .string domain) →
        ∃ value : String, item.Value = .string value ∧ conf.getToken domain = some value)
    ∧ ((∀ x ∈ conf.Tokens, x.readableFor domain = true) →
        (∀ x ∈ conf.Tokens, x.Key ≠ .string domain) → conf.getToken domain = some "")
    ∧ (∀ path : String,
        ConfigManager.GetTokenOnly ⟨path, some conf⟩ domain = conf.getToken domain) := by
  refine ⟨?_, ?_, ?_, ?_⟩
  · constructor
    · intro h
      by_contra hread
      exact h (getTokenLoop_unreadable domain "" conf.Tokens hread)
    · intro hread h
      obtain ⟨t, ht⟩ := getTokenLoop_readable domain "" conf.Tokens hread
      unfold Config.getToken at h
      rw [ht] at h
      cases h
  · intro hread before after item hsplit hitem hafter
    have hitemread : item.readableFor domain = true :=
      hread item (by rw [hsplit]; simp)
    have hbefore : ∀ x ∈ before, x.readableFor domain = true :=
      fun x hx => hread x (by rw [hsplit]; simp [hx])
    have hafterread : ∀ x ∈ after, x.readableFor domain = true :=
      fun x hx => hread x (by rw [hsplit]; simp [hx])
    obtain ⟨key, value⟩ := item
    simp only at hitem
    subst hitem
    cases value with
    | other y => simp [MapItem.readableFor] at hitemread
    | string v =>
      refine ⟨v, rfl, ?_⟩
      obtain ⟨t0, ht0⟩ := getTokenLoop_readable domain "" before hbefore
      unfold Config.getToken
      rw [hsplit, getTokenLoop_append, ht0]
      simp only [Option.some_bind, getTokenLoop, GoValue.assertString, if_true]
      exact getTokenLoop_no_match domain v after hafterread hafter
  · intro hread hkeys
    exact getTokenLoop_no_match domain "" conf.Tokens hread hkeys
  · intro path
    rfl

/-- C13, amended, at a store with two entries for `gitlab.ssl.domain1.jp`: the later
one is returned. -/
theorem getToken_last_entry_wins_witness :
    (∀ x ∈ [(⟨.string "gitlab.ssl.domain1.jp", .string "token1"⟩ : MapItem),
          ⟨.string "gitlab.ssl.domain1.jp", .string "token3"⟩,
          ⟨.string "gitlab.ssl.domain2.jp", .string "token2"⟩],
        x.readableFor "gitlab.ssl.domain1.jp" = true) ∧
    (∀ x ∈ [(⟨.string "gitlab.ssl.domain2.jp", .string "token2"⟩ : MapItem)],
        x.Key ≠ .string "gitlab.ssl.domain1.jp") ∧
    ∃ value : String,
      (⟨.string "gitlab.ssl.domain1.jp", .string "token3"⟩ : MapItem).Value = .string value ∧
      Config.getToken
          ⟨[⟨.string "gitlab.ssl.domain1.jp", .string "token1"⟩,
            ⟨.string "gitlab.ssl.domain1.jp", .string "token3"⟩,
            ⟨.string "gitlab.ssl.domain2.jp", .string "token2"⟩], []⟩
          "gitlab.ssl.domain1.jp" = some value :=
  ⟨by decide, by decide,
    (getToken_last_entry_wins
      ⟨[⟨.string "gitlab.ssl.domain1.jp", .string "token1"⟩,
        ⟨.string "gitlab.ssl.domain1.jp", .string "token3"⟩,
        ⟨.string "gitlab.ssl.domain2.jp", .string "token2"⟩], []⟩
      "gitlab.ssl.domain1.jp").2.1 (by decide)
      [⟨.string "gitlab.ssl.domain1.jp", .string "token1"⟩]
      [⟨.string "gitlab.ssl.domain2.jp", .string "token2"⟩]
      ⟨.string "gitlab.ssl.domain1.jp", .string "token3"⟩ rfl rfl (by decide)⟩

/-- C14: over a store that is present. A stored, non-empty token is returned with no
query to the user and the manager unchanged. When the stored token is empty the
user is asked once: if the answer is `t` and the save succeeds, `t` is returned
and `Tokens` is the old list followed by `(domain, t)`; if the save fails, an
error is returned with the empty string, not `t`; if the question fails, an
error is returned and the manager is unchanged. -/
theorem GetToken_stored_or_asked (path : String) (conf : Config) (ui : Ui) (env : SaveEnv)
    (domain : String) :
    (∀ token : String, conf.getToken domain = some token → token ≠ "" →
        ConfigManager.GetToken ⟨path, some conf⟩ ui env domain
          = some ((token, none), ⟨path, some conf⟩, []))
    ∧ (conf.getToken domain = some "" → ∀ t : String,
        ui.Ask "Please input GitLab private token :" = (t, none) →
        ConfigManager.Save
            ⟨path, some ⟨conf.Tokens ++ [⟨.string domain, .string t⟩],
              conf.PreferredDomains⟩⟩ env = none →
        ConfigManager.GetToken ⟨path, some conf⟩ ui env domain
          = some ((t, none),
              ⟨path, some ⟨conf.Tokens ++ [⟨.string domain, .string t⟩],
                conf.PreferredDomains⟩⟩,
              ["Please input GitLab private token :"]))
    ∧ (conf.getToken domain = some "" → ∀ t e : String,
        ui.Ask "Please input GitLab private token :" = (t, none) →
        ConfigManager.Save
            ⟨path, some ⟨conf.Tokens ++ [⟨.string domain, .string t⟩],
              conf.PreferredDomains⟩⟩ env = some e →
        ConfigManager.GetToken ⟨path, some conf⟩ ui env domain
          = some (("", some ("Failed update config of private token. " ++ e)),
              ⟨path, some ⟨conf.Tokens ++ [⟨.string domain, .string t⟩],
                conf.PreferredDomains⟩⟩,
              ["Please input GitLab private token :"]))
    ∧ (conf.getToken domain = some "" → ∀ t e : String,
        ui.Ask "Please input GitLab private token :" = (t, some e) →
        ConfigManager.GetToken ⟨path, some conf⟩ ui env domain
          = some (("", some ("Failed input private token. " ++ e)), ⟨path, some conf⟩,
              ["Please input GitLab private token :"])) := by
  refine ⟨?_, ?_, ?_, ?_⟩
  · intro token h hne
    simp [ConfigManager.GetToken, h, hne]
  · intro h t hask hsave
    simp only [ConfigManager.GetToken, h, if_true, ConfigManager.askToken, hask,
      Config.addToken, hsave]
  · intro h t e hask hsave
    simp only [ConfigManager.GetToken, h, if_true, ConfigManager.askToken, hask,
      Config.addToken, hsave]
  · intro h t e hask
    simp only [ConfigManager.GetToken, h, if_true, ConfigManager.askToken, hask]

/-- C14, at an empty store, a user who types `token1` and a file that opens and is
written without error: the token is returned, stored and asked for once. -/
theorem GetToken_stored_or_asked_witness :
    Config.getToken ⟨[], []⟩ "gitlab.ssl.domain1.jp" = some "" ∧
    ConfigManager.GetToken ⟨"/home/user/.labconfig.yml", some ⟨[], []⟩⟩
        ⟨fun _ => ("token1", none)⟩
        { fileExists := true, openErr := none, readAll := .ok "",
          unmarshal := fun _ => .error "", closeErr := none,
          marshal := fun _ => .ok "", writeErr := none }
        "gitlab.ssl.domain1.jp"
      = some (("token1", none),
          ⟨"/home/user/.labconfig.yml",
            some ⟨[] ++ [⟨.string "gitlab.ssl.domain1.jp", .string "token1"⟩], []⟩⟩,
          ["Please input GitLab private token :"]) :=
  ⟨rfl,
    (GetToken_stored_or_asked "/home/user/.labconfig.yml" ⟨[], []⟩
      ⟨fun _ => ("token1", none)⟩
      { fileExists := true, openErr := none, readAll := .ok "",
        unmarshal := fun _ => .error "", closeErr := none,
        marshal := fun _ => .ok "", writeErr := none }
      "gitlab.ssl.domain1.jp").2.1 rfl "token1" rfl rfl⟩

/-! ## Explicit projects: settled properties -/

theorem split_error_form (order : List (String × BrowseType)) (arg e : String)
    (h : (splitPrefixAndNumber order arg).2.2 = some e) :
    (∃ x : String, e = "Invalid arg. " ++ x)
      ∨ (∃ x : String, e = "Invalid browse number. \"" ++ x ++ "\"") := by
  induction order with
  | nil =>
    simp only [splitPrefixAndNumber, Option.some.injEq] at h
    exact Or.inl ⟨arg, h.symm⟩
  | cons kv rest ih =>
    obtain ⟨k, v⟩ := kv
    by_cases hp : HasPrefix arg k = true
    · have e : splitPrefixAndNumber ((k, v) :: rest) arg
          = if TrimPrefix arg k = "" then (v, 0, none)
            else match Atoi (TrimPrefix arg k) with
              | none => (0, 0, some ("Invalid browse number. \"" ++ TrimPrefix arg k ++ "\""))
              | some number => (v, number, none) := by
        simp only [splitPrefixAndNumber, hp, if_true]
      rw [e] at h
      by_cases hempty : TrimPrefix arg k = ""
      · rw [if_pos hempty] at h
        cases h
      · rw [if_neg hempty] at h
        cases ha : Atoi (TrimPrefix arg k) with
        | none =>
          rw [ha] at h
          exact Or.inr ⟨TrimPrefix arg k, (Option.some.inj h).symm⟩
        | some n =>
          rw [ha] at h
          cases h
    · have e : splitPrefixAndNumber ((k, v) :: rest) arg = splitPrefixAndNumber rest arg := by
        simp only [splitPrefixAndNumber, hp]
        rfl
      rw [e] at h
      exact ih h

theorem split_error_ne_not_found (order : List (String × BrowseType)) (arg : String) :
    (splitPrefixAndNumber order arg).2.2 ≠ some "Not found browse url." := by
  intro h
  have hhead : ∀ a b : String, a.data.head? = some 'I' → a ++ b ≠ "Not found browse url." := by
    intro a b ha e
    have h1 := congrArg (fun s : String => s.data.head?) e
    simp only [String.data_append] at h1
    cases hd : a.data with
    | nil => rw [hd] at ha; cases ha
    | cons c rest =>
      rw [hd] at ha h1
      simp only [List.cons_append, List.head?_cons, Option.some.injEq] at ha h1
      rw [ha] at h1
      revert h1
      decide
  rcases split_error_form order arg _ h with ⟨x, hx⟩ | ⟨x, hx⟩
  · exact hhead "Invalid arg. " x (by decide) hx.symm
  · rw [String.append_assoc] at hx
    exact hhead "Invalid browse number. \"" (x ++ "\"") (by decide) hx.symm

/-- C15: for a remote that is present and a non-empty argument list,
`getUrlByUserSpecific` returns the URL or the error that `getUrlByRemote` returns,
whatever the domain, the branch and the orders in which the two visit the map;
for an empty argument list it returns `RepositoryUrl()`, whatever the domain. -/
theorem getUrlByUserSpecific_matches_getUrlByRemote (m : RemoteUrls)
    (order1 order2 : List (String × BrowseType)) (remote : RemoteInfo) (args : List String)
    (domain branch : String)
    (h1 : order1.Perm browseTypePrefix) (h2 : order2.Perm browseTypePrefix) :
    (args ≠ [] →
        getUrlByUserSpecific m order1 (some remote) args domain
          = getUrlByRemote m order2 remote args branch)
    ∧ getUrlByUserSpecific m order1 (some remote) [] domain = (m.RepositoryUrl remote, none) := by
  refine ⟨?_, rfl⟩
  intro hargs
  cases args with
  | nil => exact absurd rfl hargs
  | cons arg0 rest =>
    simp only [getUrlByUserSpecific, getUrlByRemote]
    rw [split_perm order1 arg0 h1, split_perm order2 arg0 h2]

/-- C15, at the argument `!3`, the domain `gitlab.com` and the branch `develop`, with
the map visited backwards by one function and in the source's order by the
other. -/
theorem getUrlByUserSpecific_matches_getUrlByRemote_witness :
    browseTypePrefix.reverse.Perm browseTypePrefix ∧
    browseTypePrefix.Perm browseTypePrefix ∧ ["!3"] ≠ [] ∧
    getUrlByUserSpecific specUrls browseTypePrefix.reverse
        (some ⟨"domain", "group", "repository"⟩) ["!3"] "gitlab.com"
      = getUrlByRemote specUrls browseTypePrefix ⟨"domain", "group", "repository"⟩ ["!3"]
          "develop" :=
  ⟨List.reverse_perm _, List.Perm.refl _, by decide,
    (getUrlByUserSpecific_matches_getUrlByRemote specUrls browseTypePrefix.reverse
      browseTypePrefix ⟨"domain", "group", "repository"⟩ ["!3"] "gitlab.com" "develop"
      (List.reverse_perm _) (List.Perm.refl _)).1 (by decide)⟩

/-- C16: with no remote, `getUrlByUserSpecific` returns `https://` followed by the
domain for every non-empty domain, whatever the arguments; and its error is
`Not found browse url.` exactly when the remote is `nil` and the domain is empty,
whatever the arguments and the order of visit of the map. -/
theorem getUrlByUserSpecific_without_remote (m : RemoteUrls)
    (order : List (String × BrowseType)) (args : List String) (domain : String) :
    (domain ≠ "" →
        getUrlByUserSpecific m order none args domain = ("https://" ++ domain, none))
    ∧ getUrlByUserSpecific m order none args "" = ("", some "Not found browse url.")
    ∧ (∀ gitlabRemote : Option RemoteInfo,
        (getUrlByUserSpecific m order gitlabRemote args domain).2 = some "Not found browse url."
          ↔ gitlabRemote = none ∧ domain = "") := by
  refine ⟨?_, ?_, ?_⟩
  · intro h
    simp [getUrlByUserSpecific, h]
  · simp [getUrlByUserSpecific]
  · intro gitlabRemote
    cases gitlabRemote with
    | none =>
      by_cases hd : domain = ""
      · simp [getUrlByUserSpecific, hd]
      · simp [getUrlByUserSpecific, hd]
    | some remote =>
      constructor
      · intro h
        exfalso
        cases args with
        | nil => simp [getUrlByUserSpecific] at h
        | cons arg0 rest =>
          simp only [getUrlByUserSpecific] at h
          have hne := split_error_ne_not_found order arg0
          rcases hs : splitPrefixAndNumber order arg0 with ⟨bt, num, err⟩
          rw [hs] at h hne
          cases err with
          | none => simp at h
          | some e =>
            simp only at h hne
            exact hne h
      · rintro ⟨h, _⟩
        cases h

/-- C16, at the domain `gitlab.com` with an argument that is no reference. -/
theorem getUrlByUserSpecific_without_remote_witness :
    "gitlab.com" ≠ "" ∧
    getUrlByUserSpecific specUrls browseTypePrefix none ["zz"] "gitlab.com"
      = ("https://" ++ "gitlab.com", none) :=
  ⟨by decide,
    (getUrlByUserSpecific_without_remote specUrls browseTypePrefix ["zz"] "gitlab.com").1
      (by decide)⟩

/-! ## The browser launcher: settled properties -/

theorem searchLoop_first_resolved (LookPath : String → String × GoError)
    (before after : List String) (b path : String)
    (hbefore : ∀ x ∈ before, (LookPath x).2 ≠ none) (hb : LookPath b = (path, none)) :
    searchLoop LookPath (before ++ b :: after) = (path, before ++ [b]) := by
  induction before with
  | nil => simp [searchLoop, hb]
  | cons x rest ih =>
    have hx := hbefore x (List.mem_cons_self _ _)
    have hrest := ih (fun y hy => hbefore y (List.mem_cons_of_mem _ hy))
    rcases hl : LookPath x with ⟨p, err⟩
    rw [hl] at hx
    cases err with
    | none => exact absurd rfl hx
    | some e => simp [searchLoop, hl, hrest]

theorem searchLoop_none_resolved (LookPath : String → String × GoError) (names : List String)
    (hnone : ∀ x ∈ names, (LookPath x).2 ≠ none) :
    searchLoop LookPath names = ("", names) := by
  induction names with
  | nil => rfl
  | cons x rest ih =>
    have hx := hnone x (List.mem_cons_self _ _)
    have hrest := ih (fun y hy => hnone y (List.mem_cons_of_mem _ hy))
    rcases hl : LookPath x with ⟨p, err⟩
    rw [hl] at hx
    cases err with
    | none => exact absurd rfl hx
    | some e => simp [searchLoop, hl, hrest]

/-- C17: `searchBrowserLauncher` returns `open` for `darwin` and `cmd /c start` for
`windows` with no call to the resolver; for every other platform it returns the
path the resolver gives for the first of `xdg-open`, `cygstart`, `x-www-browser`,
`firefox`, `opera`, `mozilla`, `netscape` that resolves, having asked for the names
up to that one in this order, and the empty command when none resolves. -/
theorem searchBrowserLauncher_selection (LookPath : String → String × GoError)
    (goos : String) :
    searchBrowserLauncher LookPath "darwin" = ("open", [])
    ∧ searchBrowserLauncher LookPath "windows" = ("cmd /c start", [])
    ∧ candidates
        = ["xdg-open", "cygstart", "x-www-browser", "firefox", "opera", "mozilla", "netscape"]
    ∧ (goos ≠ "darwin" → goos ≠ "windows" →
        ∀ (before after : List String) (b path : String), candidates = before ++ b :: after →
        (∀ x ∈ before, (LookPath x).2 ≠ none) → LookPath b = (path, none) →
        searchBrowserLauncher LookPath goos = (path, before ++ [b]))
    ∧ (goos ≠ "darwin" → goos ≠ "windows" →
        (∀ x ∈ candidates, (LookPath x).2 ≠ none) →
        searchBrowserLauncher LookPath goos = ("", candidates)) := by
  refine ⟨rfl, rfl, rfl, ?_, ?_⟩
  · intro hd hw before after b path hsplit hbefore hb
    unfold searchBrowserLauncher
    rw [if_neg hd, if_neg hw, hsplit]
    exact searchLoop_first_resolved LookPath before after b path hbefore hb
  · intro hd hw hnone
    unfold searchBrowserLauncher
    rw [if_neg hd, if_neg hw]
    exact searchLoop_none_resolved LookPath candidates hnone

/-- C17, on `linux` with a resolver that knows only `firefox`: the fourth candidate
is found after the first three have been tried. -/
theorem searchBrowserLauncher_selection_witness :
    "linux" ≠ "darwin" ∧ "linux" ≠ "windows" ∧
    searchBrowserLauncher
        (fun b => if b = "firefox" then ("/usr/bin/firefox", none) else ("", some "not found"))
        "linux"
      = ("/usr/bin/firefox", ["xdg-open", "cygstart", "x-www-browser"] ++ ["firefox"]) :=
  ⟨by decide, by decide,
    (searchBrowserLauncher_selection
      (fun b => if b = "firefox" then ("/usr/bin/firefox", none) else ("", some "not found"))
      "linux").2.2.2.1 (by decide) (by decide)
      ["xdg-open", "cygstart", "x-www-browser"] ["opera", "mozilla", "netscape"] "firefox"
      "/usr/bin/firefox" rfl (by decide) rfl⟩

/-! ## The credential store, continued: settled properties -/

theorem TopPriorityDomain_eq_loop (path : String) (conf : Config) (domains : List String) :
    ConfigManager.TopPriorityDomain ⟨path, some conf⟩ domains
      = some (topPriorityLoop conf domains) := by
  cases domains with
  | nil => rfl
  | cons d rest => rfl

/-- C18: two stores whose `PreferredDomains` hold the same domains, in whatever order
and with whatever repetitions, give the same `TopPriorityDomain` for every list
of candidates. -/
theorem TopPriorityDomain_membership_only (path1 path2 : String) (conf1 conf2 : Config)
    (domains : List String)
    (hsame : ∀ d : String, d ∈ conf1.PreferredDomains ↔ d ∈ conf2.PreferredDomains) :
    ConfigManager.TopPriorityDomain ⟨path1, some conf1⟩ domains
      = ConfigManager.TopPriorityDomain ⟨path2, some conf2⟩ domains := by
  rw [TopPriorityDomain_eq_loop, TopPriorityDomain_eq_loop, topPriorityLoop_eq_find,
    topPriorityLoop_eq_find]
  have : (fun d => decide (d ∈ conf1.PreferredDomains))
      = (fun d => decide (d ∈ conf2.PreferredDomains)) := by
    funext d
    simp [hsame d]
  rw [this]

/-- C18, at the preferred domains `[d1, d2]` and `[d2, d2, d1]` with candidates
`[d3, d2, d1]`. -/
theorem TopPriorityDomain_membership_only_witness :
    (∀ d : String, d ∈ (⟨[], ["d1", "d2"]⟩ : Config).PreferredDomains
        ↔ d ∈ (⟨[], ["d2", "d2", "d1"]⟩ : Config).PreferredDomains) ∧
    ConfigManager.TopPriorityDomain ⟨"a.yml", some ⟨[], ["d1", "d2"]⟩⟩ ["d3", "d2", "d1"]
      = ConfigManager.TopPriorityDomain ⟨"b.yml", some ⟨[], ["d2", "d2", "d1"]⟩⟩
          ["d3", "d2", "d1"] :=
  ⟨by intro d; simp; tauto,
    TopPriorityDomain_membership_only "a.yml" "b.yml" ⟨[], ["d1", "d2"]⟩
      ⟨[], ["d2", "d2", "d1"]⟩ ["d3", "d2", "d1"] (by intro d; simp; tauto)⟩

/-- C19: `addToken(d, t)` makes `Tokens` the old list followed by the one entry
`(d, t)` and leaves `PreferredDomains` as it was; `addPreferredDomain(d)` makes
`PreferredDomains` the old list followed by `d` and leaves `Tokens` as it was;
nothing is removed, reordered or merged, also when `d` is already there.
`SaveToken` and `SavePreferredDomain` leave the manager with exactly that store,
whether or not the save succeeds. -/
theorem store_mutations_append_only (conf : Config) (d t : String) :
    (conf.addToken d t).Tokens = conf.Tokens ++ [⟨.string d, .string t⟩]
    ∧ (conf.addToken d t).PreferredDomains = conf.PreferredDomains
    ∧ (conf.addPreferredDomain d).PreferredDomains = conf.PreferredDomains ++ [d]
    ∧ (conf.addPreferredDomain d).Tokens = conf.Tokens
    ∧ (∀ (path : String) (env : SaveEnv), ∃ err : GoError,
        ConfigManager.SaveToken ⟨path, some conf⟩ env d t
          = some (err, ⟨path, some ⟨conf.Tokens ++ [⟨.string d, .string t⟩], conf.PreferredDomains⟩⟩))
    ∧ (∀ (path : String) (env : SaveEnv), ∃ err : GoError,
        ConfigManager.SavePreferredDomain ⟨path, some conf⟩ env d
          = some (err, ⟨path, some ⟨conf.Tokens, conf.PreferredDomains ++ [d]⟩⟩)) := by
  refine ⟨rfl, rfl, rfl, rfl, ?_, ?_⟩
  · intro path env
    simp only [ConfigManager.SaveToken, Config.addToken]
    cases ConfigManager.Save
        ⟨path, some ⟨conf.Tokens ++ [⟨.string d, .string t⟩], conf.PreferredDomains⟩⟩ env with
    | none => exact ⟨none, rfl⟩
    | some e => exact ⟨some ("Failed save token. Error: " ++ e), rfl⟩
  · intro path env
    simp only [ConfigManager.SavePreferredDomain, Config.addPreferredDomain]
    cases ConfigManager.Save
        ⟨path, some ⟨conf.Tokens, conf.PreferredDomains ++ [d]⟩⟩ env with
    | none => exact ⟨none, rfl⟩
    | some e => exact ⟨some ("Failed save domain. Error: " ++ e), rfl⟩

theorem append_ne_of_first (a b target : String) (c : Char) (ha : a.data.head? = some c)
    (ht : target.data.head? ≠ some c) : a ++ b ≠ target := by
  intro e
  apply ht
  rw [← e, String.data_append]
  cases hd : a.data with
  | nil => rw [hd] at ha; cases ha
  | cons x rest =>
    rw [hd] at ha
    simpa using ha

/-- C20: on a manager whose `Path` is empty, `Load` returns a `nil` store with the
error `Please initialize config manager`, makes no call to the operating
system and leaves the manager, its `Config` included, as it was; so does the
manager `NewConfigManager()` builds. No error that `open` or `read` builds has
that text. -/
theorem Load_uninitialised (conf : Option Config) (env : LoadEnv) :
    ConfigManager.Load ⟨"", conf⟩ env
        = ((none, some "Please initialize config manager"), ⟨"", conf⟩)
    ∧ ConfigManager.LoadCalls ⟨"", conf⟩ env = []
    ∧ NewConfigManager.Load env
        = ((none, some "Please initialize config manager"), NewConfigManager)
    ∧ (∀ c : ConfigManager, (c.open env).2 ≠ some "Please initialize config manager")
    ∧ (∀ c : ConfigManager, (c.read env).2 ≠ some "Please initialize config manager") := by
  have hF : ∀ a b : String, a.data.head? = some 'F' →
      a ++ b ≠ "Please initialize config manager" :=
    fun a b ha => append_ne_of_first a b _ 'F' ha (by decide)
  have hN : ∀ b : String, "Not exist config: Path " ++ b ≠ "Please initialize config manager" :=
    fun b => append_ne_of_first _ b _ 'N' (by decide) (by decide)
  refine ⟨rfl, rfl, rfl, ?_, ?_⟩
  · intro c h
    unfold ConfigManager.open at h
    split_ifs at h with hex
    · exact hN _ (Option.some.inj h)
    · cases ho : env.openErr with
      | none => rw [ho] at h; cases h
      | some e =>
        rw [ho] at h
        exact hF "Filed open file. Error: " e (by decide) (Option.some.inj h)
  · intro c h
    unfold ConfigManager.read at h
    cases hr : env.readAll with
    | error e =>
      rw [hr] at h
      exact hF "Failed unmarshal yaml. Error: " e (by decide) (Option.some.inj h)
    | ok b =>
      rw [hr] at h
      cases hu : env.unmarshal b with
      | error e =>
        simp only [hu] at h
        rw [String.append_assoc, String.append_assoc] at h
        exact hF "Failed unmarshal yaml. \nError: " _ (by decide) (Option.some.inj h)
      | ok cf =>
        simp only [hu] at h
        cases h

/-! ## The browse command: settled properties -/

/-- C21: once the arguments are parsed and valid, the provider is ready and has
resolved a remote, everything `Run` does next is done on one descriptor. With an
explicit project it is the resolved remote with its namespace and repository
replaced by the two results of `NameSpaceAndProject` and its `Domain` kept, and
the page opened without a path is the one `getUrlByUserSpecific` gives for that
descriptor and the resolved `Domain`; with no project it is the resolved remote,
unchanged. -/
theorem Run_project_override (env : BrowseEnv) (args parseArgs : List String)
    (browseOption : BrowseOption) (resolved : RemoteInfo)
    (hparse : env.ParseArgs args = (browseOption, parseArgs, none))
    (hvalid : env.IsValid browseOption = none) (hinit : env.ProviderInit = none)
    (hremote : env.GetCurrentRemote = (some resolved, none)) :
    (browseOption.Project ≠ "" →
        BrowseCommand.Run env args
          = runWithRemote env browseOption parseArgs
              (some { Domain := resolved.Domain,
                      Group := (env.NameSpaceAndProject browseOption).1,
                      Repository := (env.NameSpaceAndProject browseOption).2 }))
    ∧ (browseOption.Project = "" →
        BrowseCommand.Run env args = runWithRemote env browseOption parseArgs (some resolved))
    ∧ (browseOption.Project ≠ "" → browseOption.Path = "" → browseOption.CurrentPath = false →
        BrowseCommand.Run env args
          = some (match getUrlByUserSpecific env.urls env.order
                (some { Domain := resolved.Domain,
                        Group := (env.NameSpaceAndProject browseOption).1,
                        Repository := (env.NameSpaceAndProject browseOption).2 })
                parseArgs resolved.Domain with
              | (_, some err) => { code := .ExitCodeError, errors := [err], spawned := none }
              | (url, none) => spawnBrowser env [] url)) := by
  have hrun : BrowseCommand.Run env args
      = if browseOption.Project ≠ "" then
          runWithRemote env browseOption parseArgs
            (some { resolved with
                    Group := (env.NameSpaceAndProject browseOption).1,
                    Repository := (env.NameSpaceAndProject browseOption).2 })
        else runWithRemote env browseOption parseArgs (some resolved) := by
    simp only [BrowseCommand.Run, hparse, hvalid, hinit, hremote]
  refine ⟨?_, ?_, ?_⟩
  · intro hproject
    rw [hrun, if_pos hproject]
  · intro hproject
    rw [hrun, if_neg (not_not.2 hproject)]
  · intro hproject hpath hcurrent
    rw [hrun, if_pos hproject]
    simp only [runWithRemote, hpath, hcurrent, hproject, ne_eq, not_true_eq_false,
      not_false_eq_true, if_true, if_false, Bool.false_eq_true]
    rcases getUrlByUserSpecific env.urls env.order
        (some { Domain := resolved.Domain,
                Group := (env.NameSpaceAndProject browseOption).1,
                Repository := (env.NameSpaceAndProject browseOption).2 })
        parseArgs resolved.Domain with ⟨url, err⟩
    cases err with
    | none => rfl
    | some e => rfl

/-- C21, at the example run: the issue page opened is that of `owner/project` on the
resolved domain `gitlab.ssl.domain1.jp`. -/
theorem Run_project_override_witness :
    exampleBrowseEnv.ParseArgs ["-p", "owner/project", "#12"]
        = ({ Project := "owner/project", Path := "", CurrentPath := false }, ["#12"], none) ∧
    exampleBrowseEnv.GetCurrentRemote
        = (some ⟨"gitlab.ssl.domain1.jp", "group", "repository"⟩, none) ∧
    BrowseCommand.Run exampleBrowseEnv ["-p", "owner/project", "#12"]
      = some { code := .ExitCodeOK, errors := [],
               spawned := some ("open",
                 "https://gitlab.ssl.domain1.jp/owner/project/issues/12") } :=
  ⟨rfl, rfl,
    ((Run_project_override exampleBrowseEnv ["-p", "owner/project", "#12"] ["#12"]
      { Project := "owner/project", Path := "", CurrentPath := false }
      ⟨"gitlab.ssl.domain1.jp", "group", "repository"⟩ rfl rfl rfl rfl).2.2
      (by decide) rfl rfl).trans (by decide)⟩

/-! ## Merge-request update: settled properties -/

theorem updateOnEditorMethod_error_always_nil (flags : Mr.FlagAccessors)
    (m : Mr.updateOnEditorMethod) (r : (String × GoError) × List Mr.ApiCall)
    (h : Mr.updateOnEditorMethod.Process flags m = some r) : r.1 = ("", none) := by
  unfold Mr.updateOnEditorMethod.Process at h
  rcases hg : m.client.GetMergeRequest m.id m.project with ⟨mr, gerr⟩
  rw [hg] at h
  cases gerr with
  | some e =>
    simp only [Option.some.injEq] at h
    rw [← h]
  | none =>
    cases mr with
    | none =>
      simp only at h
      cases h
    | some mergeRequest =>
      simp only at h
      rcases he : m.EditTitleAndDesc mergeRequest.Title mergeRequest.Description
        with ⟨title, message, eerr⟩
      rw [he] at h
      cases eerr with
      | some e =>
        simp only [Option.some.injEq] at h
        rw [← h]
      | none =>
        simp only at h
        rcases hu : m.client.UpdateMergeRequest
            (Mr.makeUpdateMergeRequestOption flags m.opt title message) m.id m.project
          with ⟨updated, uerr⟩
        rw [hu] at h
        cases uerr with
        | some e =>
          simp only [Option.some.injEq] at h
          rw [← h]
        | none =>
          simp only [Option.some.injEq] at h
          rw [← h]

theorem updateMethod_update_error_lost (flags : Mr.FlagAccessors) (m : Mr.updateMethod)
    (mergeRequest : Mr.MergeRequest)
    (hget : m.client.GetMergeRequest m.id m.project = (some mergeRequest, none)) :
    ∃ calls, Mr.updateMethod.Process flags m = some (("", none), calls) := by
  unfold Mr.updateMethod.Process
  rw [hget]
  simp only
  rcases hu : m.client.UpdateMergeRequest
      (Mr.makeUpdateMergeRequestOption flags m.opt
        (if m.opt.Title ≠ "" then m.opt.Title else mergeRequest.Title)
        (if m.opt.Message ≠ "" then m.opt.Message else mergeRequest.Description))
      m.id m.project with ⟨updated, uerr⟩
  cases uerr with
  | some e => exact ⟨_, rfl⟩
  | none => exact ⟨_, rfl⟩

/-- C22: a client whose `GetMergeRequest` succeeds and whose `UpdateMergeRequest` fails:
`updateMethod.Process` returns `("", nil)`; and a client whose `GetMergeRequest`
fails: `updateOnEditorMethod.Process` returns `("", nil)` as well. Neither
failure reaches the caller. -/
theorem Process_swallows_failures :
    Mr.updateMethod.Process ⟨fun _ => (false, false), fun _ => (false, false)⟩
        { client :=
            { GetMergeRequest := fun _ _ => (some ⟨"title", "desc"⟩, none),
              UpdateMergeRequest := fun _ _ _ => (none, some "500 Internal Server Error") },
          opt := ⟨"newtitle", "", "", "", 0, 0⟩, project := "group/project", id := 12 }
      = some (("", none),
          [.GetMergeRequest 12 "group/project",
           .UpdateMergeRequest
              ⟨some "newtitle", some "desc", some "", none, none, none, none, none⟩
              12 "group/project"])
    ∧ Mr.updateOnEditorMethod.Process ⟨fun _ => (false, false), fun _ => (false, false)⟩
        { client :=
            { GetMergeRequest := fun _ _ => (none, some "404 Not Found"),
              UpdateMergeRequest := fun _ _ _ => (none, none) },
          opt := ⟨"newtitle", "", "", "", 0, 0⟩, project := "group/project", id := 12,
          EditTitleAndDesc := fun title description => (title, description, none) }
      = some (("", none), [.GetMergeRequest 12 "group/project"]) := by
  constructor
  · decide
  · decide

theorem makeUpdate_title_description (flags : Mr.FlagAccessors) (opt : Mr.CreateUpdateOption)
    (title description : String) :
    (Mr.makeUpdateMergeRequestOption flags opt title description).Title = some title
    ∧ (Mr.makeUpdateMergeRequestOption flags opt title description).Description
        = some description
    ∧ (Mr.makeUpdateMergeRequestOption flags opt title description).TargetBranch
        = some opt.TargetBranch := by
  unfold Mr.makeUpdateMergeRequestOption
  simp only
  split_ifs <;> exact ⟨rfl, rfl, rfl⟩

/-- C23: when the merge request exists, `updateMethod.Process` fetches it by `m.id` and
`m.project` and then sends one update for the same id and project; the update
carries as title the option's `Title` when it is not empty and the existing
title otherwise, and as description the option's `Message` when it is not empty
and the existing description otherwise. -/
theorem updateMethod_request (flags : Mr.FlagAccessors) (m : Mr.updateMethod)
    (mergeRequest : Mr.MergeRequest)
    (hget : m.client.GetMergeRequest m.id m.project = (some mergeRequest, none)) :
    ∃ request : Mr.UpdateMergeRequestOptions,
      (Mr.updateMethod.Process flags m).map (fun r => r.2)
          = some [.GetMergeRequest m.id m.project, .UpdateMergeRequest request m.id m.project]
      ∧ request.Title = some (if m.opt.Title ≠ "" then m.opt.Title else mergeRequest.Title)
      ∧ request.Description
          = some (if m.opt.Message ≠ "" then m.opt.Message else mergeRequest.Description)
      ∧ request = Mr.makeUpdateMergeRequestOption flags m.opt
          (if m.opt.Title ≠ "" then m.opt.Title else mergeRequest.Title)
          (if m.opt.Message ≠ "" then m.opt.Message else mergeRequest.Description) := by
  refine ⟨Mr.makeUpdateMergeRequestOption flags m.opt
      (if m.opt.Title ≠ "" then m.opt.Title else mergeRequest.Title)
      (if m.opt.Message ≠ "" then m.opt.Message else mergeRequest.Description), ?_,
    (makeUpdate_title_description flags m.opt _ _).1,
    (makeUpdate_title_description flags m.opt _ _).2.1, rfl⟩
  unfold Mr.updateMethod.Process
  rw [hget]
  simp only
  rcases hu : m.client.UpdateMergeRequest
      (Mr.makeUpdateMergeRequestOption flags m.opt
        (if m.opt.Title ≠ "" then m.opt.Title else mergeRequest.Title)
        (if m.opt.Message ≠ "" then m.opt.Message else mergeRequest.Description))
      m.id m.project with ⟨updated, uerr⟩
  cases uerr with
  | some e => rfl
  | none => rfl

/-- C23, at the test's case "change title only": the update keeps the description
`desc` and carries the title `newtitle`, for id 12 of `group/project`. -/
theorem updateMethod_request_witness :
    exampleUpdateMethod.client.GetMergeRequest exampleUpdateMethod.id
        exampleUpdateMethod.project = (some ⟨"title", "desc"⟩, none) ∧
    ∃ request : Mr.UpdateMergeRequestOptions,
      (Mr.updateMethod.Process exampleFlags exampleUpdateMethod).map (fun r => r.2)
          = some [.GetMergeRequest 12 "group/project",
                  .UpdateMergeRequest request 12 "group/project"]
      ∧ request.Title = some "newtitle" ∧ request.Description = some "desc" :=
  ⟨rfl,
    match updateMethod_request exampleFlags exampleUpdateMethod ⟨"title", "desc"⟩ rfl with
    | ⟨request, hcalls, htitle, hdesc, _⟩ => ⟨request, hcalls, htitle, hdesc⟩⟩

/-- C24: `makeUpdateMergeRequestOption` always sets `Title`, `Description` and
`TargetBranch` (the last also when it is the empty string); it sets `StateEvent`
exactly when the option's `StateEvent` is not empty, `AssigneeID` and
`MilestoneID` exactly when the option's are not zero, and `RemoveSourceBranch` and
`Squash` exactly when the flag accessor reports the flag as given, with the value
it reports. -/
theorem makeUpdateMergeRequestOption_fields (flags : Mr.FlagAccessors)
    (opt : Mr.CreateUpdateOption) (title description : String) :
    (Mr.makeUpdateMergeRequestOption flags opt title description).Title = some title
    ∧ (Mr.makeUpdateMergeRequestOption flags opt title description).Description
        = some description
    ∧ (Mr.makeUpdateMergeRequestOption flags opt title description).TargetBranch
        = some opt.TargetBranch
    ∧ (Mr.makeUpdateMergeRequestOption flags opt title description).StateEvent
        = (if opt.StateEvent ≠ "" then some opt.StateEvent else none)
    ∧ (Mr.makeUpdateMergeRequestOption flags opt title description).AssigneeID
        = (if opt.AssigneeID ≠ 0 then some opt.AssigneeID else none)
    ∧ (Mr.makeUpdateMergeRequestOption flags opt title description).MilestoneID
        = (if opt.MilestoneID ≠ 0 then some opt.MilestoneID else none)
    ∧ (Mr.makeUpdateMergeRequestOption flags opt title description).RemoveSourceBranch
        = (if (flags.RemoveSourceBranchFlag opt).1 = true
            then some (flags.RemoveSourceBranchFlag opt).2 else none)
    ∧ (Mr.makeUpdateMergeRequestOption flags opt title description).Squash
        = (if (flags.SquashFlag opt).1 = true then some (flags.SquashFlag opt).2 else none) := by
  unfold Mr.makeUpdateMergeRequestOption
  simp only
  by_cases h1 : opt.StateEvent = "" <;> by_cases h2 : opt.AssigneeID = 0 <;>
    by_cases h3 : opt.MilestoneID = 0 <;>
    by_cases h4 : (flags.RemoveSourceBranchFlag opt).1 = true <;>
    by_cases h5 : (flags.SquashFlag opt).1 = true <;>
    simp [h1, h2, h3, h4, h5]

/-! ## Search options: settled properties -/

/-- C25: `GetState` is `opened` when `Opened` is set, whatever `Closed` is, otherwise
`closed` when `Closed` is set, otherwise the field `State`; `GetScope` is
`created-by-me` when `CreatedMe` is set, whatever `AssignedMe` is, otherwise
`assigned-to-me` when `AssignedMe` is set, otherwise the field `Scope`; the option
is the same after either call. -/
theorem SearchOption_state_and_scope (s : SearchOption) :
    (s.Opened = true → s.GetState.1 = "opened")
    ∧ (s.Opened = false → s.Closed = true → s.GetState.1 = "closed")
    ∧ (s.Opened = false → s.Closed = false → s.GetState.1 = s.State)
    ∧ (s.CreatedMe = true → s.GetScope.1 = "created-by-me")
    ∧ (s.CreatedMe = false → s.AssignedMe = true → s.GetScope.1 = "assigned-to-me")
    ∧ (s.CreatedMe = false → s.AssignedMe = false → s.GetScope.1 = s.Scope)
    ∧ s.GetState.2 = s ∧ s.GetScope.2 = s := by
  refine ⟨?_, ?_, ?_, ?_, ?_, ?_, ?_, ?_⟩
  · intro h; simp [SearchOption.GetState, h]
  · intro h1 h2; simp [SearchOption.GetState, h1, h2]
  · intro h1 h2; simp [SearchOption.GetState, h1, h2]
  · intro h; simp [SearchOption.GetScope, h]
  · intro h1 h2; simp [SearchOption.GetScope, h1, h2]
  · intro h1 h2; simp [SearchOption.GetScope, h1, h2]
  · unfold SearchOption.GetState
    split_ifs <;> rfl
  · unfold SearchOption.GetScope
    split_ifs <;> rfl

/-- C25, at an option with both `Opened` and `Closed` set and both `CreatedMe` and
`AssignedMe` set: `opened` and `created-by-me` win. -/
theorem SearchOption_state_and_scope_witness :
    (⟨"all", "all", "updated_at", true, true, true, true, false⟩ : SearchOption).Opened = true ∧
    (SearchOption.GetState ⟨"all", "all", "updated_at", true, true, true, true, false⟩).1
      = "opened" ∧
    (SearchOption.GetScope ⟨"all", "all", "updated_at", true, true, true, true, false⟩).1
      = "created-by-me" :=
  ⟨rfl,
    (SearchOption_state_and_scope
      ⟨"all", "all", "updated_at", true, true, true, true, false⟩).1 rfl,
    (SearchOption_state_and_scope
      ⟨"all", "all", "updated_at", true, true, true, true, false⟩).2.2.2.1 rfl⟩

end Lab
